import Mathlib

/-!
# Verification of the LIM1TR core (grid, boundary types, reaction manager)

Shallow embedding of the three core source files of the repository
(`Source/grid.py`, `Source/boundary_types.py`, `Source/reaction.py`) and proofs
of the specification claims about them.

Conventions of the embedding:
* Python floats are modelled by `ℚ` (exact arithmetic); numeric literals such
  as `5.67e-8`, `1e-14`, `1.0e-15` are the corresponding rationals.
* `np.round(·, 0)` is modelled by `roundHalfEven` (numpy rounds halves to the
  nearest even integer).
* Fallible code (`raise ValueError`) is modelled with `Except String`.
* numpy arrays are modelled by `List`s; reads are `getD` (the defaults are
  never reachable on the in-range accesses the source performs).
* The external objects (`eqn_sys`, `mat_man`, the reaction models produced by
  `rxn_model_factory`, and the `reaction_system` objects) are modelled by
  structures holding exactly the data / callable behaviour the core reads.
-/

namespace Lim1tr

/-- Decidable equality of `Except` results, for evaluating the embedding on
concrete inputs. -/
instance {ε α : Type} [DecidableEq ε] [DecidableEq α] : DecidableEq (Except ε α)
  | .error e, .error f => decidable_of_iff (e = f) (by simp)
  | .error _, .ok _ => isFalse (by simp)
  | .ok _, .error _ => isFalse (by simp)
  | .ok a, .ok b => decidable_of_iff (a = b) (by simp)

/-- `np.round(q, 0)`: round to the nearest integer, ties to the nearest even
integer (numpy / IEEE round-half-even). -/
def roundHalfEven (q : ℚ) : ℤ :=
  let f : ℤ := ⌊q⌋
  let frac : ℚ := q - f
  if frac < 1/2 then f
  else if 1/2 < frac then f + 1
  else if f % 2 = 0 then f else f + 1

/-! ## Boundary types (`Source/boundary_types.py`)

The external equation system object: the boundary operators mutate its four
per-node arrays in place.  We model it as a quadruple of functions `ℕ → ℚ`
(index by node), and the in-place `+=` as a pointwise functional update. -/

structure EqnSys where
  LHS_c : ℕ → ℚ
  RHS : ℕ → ℚ
  J_c : ℕ → ℚ
  F : ℕ → ℚ

/-- The external material manager as read by the boundary operators:
`mat_man.k_arr` (thermal conductivities by index). -/
structure MatMan where
  k_arr : ℕ → ℚ

/-- Add `v` to component `i` of a node-indexed array. -/
def addAt (a : ℕ → ℚ) (i : ℕ) (v : ℚ) : ℕ → ℚ :=
  fun j => if j = i then a j + v else a j

/-- `end_bc.__init__`: index bookkeeping for an end boundary condition.
`my_end` other than `"Left"`/`"Right"` raises. -/
structure EndBC where
  dx_arr : List ℚ
  n_tot : ℕ
  n_ind : ℕ
  k_ind : ℕ
deriving DecidableEq

def end_bc_init (dx_arr : List ℚ) (my_end : String) : Except String EndBC :=
  if my_end = "Left" then
    .ok { dx_arr := dx_arr, n_tot := dx_arr.length, n_ind := 0, k_ind := 0 }
  else if my_end = "Right" then
    .ok { dx_arr := dx_arr, n_tot := dx_arr.length,
          n_ind := dx_arr.length - 1, k_ind := dx_arr.length - 2 }
  else
    .error ("Unrecognized boundary type " ++ my_end ++ ".")

/-- `end_convection` after `set_params(h, T)`. -/
structure EndConvection where
  base : EndBC
  h_end : ℚ
  T_end : ℚ
deriving DecidableEq

def end_convection_apply (bc : EndConvection) (sys : EqnSys) (mat : MatMan) : EqnSys :=
  let phi := 2 * mat.k_arr bc.base.k_ind / bc.base.dx_arr.getD bc.base.n_ind 0
  let c_end := bc.h_end * phi / (bc.h_end + phi)
  { sys with
    LHS_c := addAt sys.LHS_c bc.base.n_ind c_end
    RHS := addAt sys.RHS bc.base.n_ind (c_end * bc.T_end) }

def end_convection_apply_operator (bc : EndConvection) (sys : EqnSys) (mat : MatMan)
    (T : ℕ → ℚ) : EqnSys :=
  let phi := 2 * mat.k_arr bc.base.k_ind / bc.base.dx_arr.getD bc.base.n_ind 0
  let c_end := bc.h_end * phi / (bc.h_end + phi)
  { sys with RHS := addAt sys.RHS bc.base.n_ind (c_end * (bc.T_end - T bc.base.n_ind)) }

/-- `end_flux` after `set_params(flux)`. -/
structure EndFlux where
  base : EndBC
  flux : ℚ
deriving DecidableEq

def end_flux_apply (bc : EndFlux) (sys : EqnSys) : EqnSys :=
  { sys with RHS := addAt sys.RHS bc.base.n_ind bc.flux }

def end_flux_apply_operator (bc : EndFlux) (sys : EqnSys) (T : ℕ → ℚ) : EqnSys :=
  { sys with RHS := addAt sys.RHS bc.base.n_ind bc.flux }

/-- `end_radiation` after `set_params(eps, T)`:
`sigma_eps = 5.67e-8 * eps`, `T_ext_4 = T**4`. -/
structure EndRadiation where
  base : EndBC
  sigma_eps : ℚ
  T_ext_4 : ℚ
deriving DecidableEq

def end_radiation_set_params (base : EndBC) (eps T : ℚ) : EndRadiation :=
  { base := base, sigma_eps := (567 / 10^10) * eps, T_ext_4 := T^4 }

def end_radiation_apply (bc : EndRadiation) (sys : EqnSys) (mat : MatMan)
    (T : ℕ → ℚ) : EqnSys :=
  { sys with
    J_c := addAt sys.J_c bc.base.n_ind (bc.sigma_eps * 4 * (T bc.base.n_ind)^3)
    F := addAt sys.F bc.base.n_ind (bc.sigma_eps * ((T bc.base.n_ind)^4 - bc.T_ext_4)) }

def end_radiation_apply_operator (bc : EndRadiation) (sys : EqnSys) (mat : MatMan)
    (T : ℕ → ℚ) : EqnSys :=
  { sys with
    RHS := addAt sys.RHS bc.base.n_ind (-(bc.sigma_eps * ((T bc.base.n_ind)^4 - bc.T_ext_4))) }

/-- `timed_boundary`: holds a wrapped boundary condition and a cutoff time;
`set_time` stores the current total time.  `apply(*args)` forwards to the
wrapped object's `apply` only while `off_time - tot_time > 1e-14`.  The wrapped
object is modelled by its `apply` behaviour (a function on the equation
system). -/
structure TimedBoundary where
  off_time : ℚ
  tot_time : ℚ

def timed_apply (tb : TimedBoundary) (bcApply : EqnSys → EqnSys) (sys : EqnSys) : EqnSys :=
  if 1/10^14 < tb.off_time - tb.tot_time then bcApply sys else sys

def timed_apply_operator (tb : TimedBoundary) (bcApplyOp : EqnSys → (ℕ → ℚ) → EqnSys)
    (sys : EqnSys) (T : ℕ → ℚ) : EqnSys :=
  if 1/10^14 < tb.off_time - tb.tot_time then bcApplyOp sys T else sys

/-! ## Grid (`Source/grid.py`)

`set_table` stores the three layer-table columns; we model the table as a
`List Layer`.  Node counts are Python ints; we keep per-layer counts in `ℤ`
(`int(np.round(...))` is exact since `np.round(..., 0)` is integer-valued) and
the running totals / index lists in `ℕ` via `Int.toNat`, which agrees with the
source whenever the counts are nonnegative — in particular whenever every
requested `dx` is positive. -/

structure Layer where
  name : String
  dx : ℚ
  thickness : ℚ
deriving DecidableEq

instance : Inhabited Layer := ⟨⟨"", 0, 0⟩⟩

/-- `n_m = int(np.round(thickness[i]/dx[i], 0))`. -/
def nodesInLayer (l : Layer) : ℤ := roundHalfEven (l.thickness / l.dx)

/-- Accumulator of the main layer loop of `grid_manager.setup_grid`. -/
structure GridAcc where
  n_tot : ℕ
  mat_nodes : List String
  nodes_per_layer : List ℤ
  mint_list : List ℕ
  first_node_list : List ℕ
  dx_list : List ℚ
deriving DecidableEq

/-- One iteration of the layer loop in `setup_grid`: thickness check, first
node index, node count, actual spacing, material tags, interface node. -/
def gridStep (acc : GridAcc) (l : Layer) : Except String GridAcc :=
  if l.thickness < l.dx then
    .error "Requested dx on layer is greater than the thickness."
  else
    let n_m := nodesInLayer l
    let n_tot := acc.n_tot + n_m.toNat
    .ok { n_tot := n_tot
          mat_nodes := acc.mat_nodes ++ List.replicate n_m.toNat l.name
          nodes_per_layer := acc.nodes_per_layer ++ [n_m]
          mint_list := acc.mint_list ++ [n_tot - 1]
          first_node_list := acc.first_node_list ++ [acc.n_tot]
          dx_list := acc.dx_list ++ [l.thickness / (n_m : ℚ)] }

/-- The `dx_arr` loop of `setup_grid`: walk the node indices carrying the
current layer index `m`, copying `dx_list[m]` and advancing `m` when the
current node is the interface node `mint_list[m]`. -/
def dxFillGo (dx_list : List ℚ) (mint_list : List ℕ) : ℕ → ℕ → ℕ → List ℚ
  | _, _, 0 => []
  | i, m, fuel + 1 =>
    dx_list.getD m 0 ::
      dxFillGo dx_list mint_list (i + 1) (if i = mint_list.getD m 0 then m + 1 else m) fuel

def dxFill (dx_list : List ℚ) (mint_list : List ℕ) (n_tot : ℕ) : List ℚ :=
  dxFillGo dx_list mint_list 0 0 n_tot

/-- The grid produced by `grid_manager.setup_grid` (the attributes set on the
`grid_manager` object).  `layer_names` keeps the table column stored by
`set_table`, read later by the reaction manager. -/
structure Grid where
  n_layers : ℕ
  n_tot : ℕ
  mat_nodes : List String
  nodes_per_layer : List ℤ
  mint_list : List ℕ
  first_node_list : List ℕ
  dx_list : List ℚ
  dx_arr : List ℚ
  internal_bounds : List (List ℕ)
  k_bounds : List (List ℕ)
  x_node : List ℚ
  layer_names : List String
deriving DecidableEq

/-- `grid_manager.setup_grid`.  (On an empty layer table the Python code would
raise an `IndexError` — not a `ValueError` — while building `internal_bounds`;
the embedding returns the empty grid there, which the error-taxonomy claims
treat the same way: no configuration error.) -/
def setup_grid (layers : List Layer) : Except String Grid := do
  let acc ← layers.foldlM gridStep ⟨0, [], [], [], [], []⟩
  if 1 < layers.length ∧ ∃ n ∈ acc.nodes_per_layer, n ≤ 1 then
    .error "Only 1 control volume on layer(s)! Minimum of 2 control volumes required for conduction problems."
  else
    let dx_arr := dxFill acc.dx_list acc.mint_list acc.n_tot
    .ok { n_layers := layers.length
          n_tot := acc.n_tot
          mat_nodes := acc.mat_nodes
          nodes_per_layer := acc.nodes_per_layer
          mint_list := acc.mint_list
          first_node_list := acc.first_node_list
          dx_list := acc.dx_list
          dx_arr := dx_arr
          internal_bounds :=
            [[1, acc.mint_list.getD 0 0]] ++
              (List.range (layers.length - 1)).map
                (fun m => [acc.mint_list.getD m 0 + 2, acc.mint_list.getD (m + 1) 0])
          k_bounds :=
            [[0, acc.mint_list.getD 0 0]] ++
              (List.range (layers.length - 1)).map
                (fun m => [acc.mint_list.getD m 0 + 1, acc.mint_list.getD (m + 1) 0])
          x_node := (List.range acc.n_tot).map
            (fun i => dx_arr.getD i 0 / 2 + (dx_arr.take i).sum)
          layer_names := layers.map Layer.name }

/-! Explicit forms of the components accumulated by the layer loop, used to
characterize `setup_grid` on inputs that pass the thickness checks. -/

def layerCounts (layers : List Layer) : List ℤ := layers.map nodesInLayer

def totalNodes (layers : List Layer) : ℕ :=
  (layers.map (fun l => (nodesInLayer l).toNat)).sum

def matNodesOf (layers : List Layer) : List String :=
  (layers.map (fun l => List.replicate (nodesInLayer l).toNat l.name)).flatten

def dxListOf (layers : List Layer) : List ℚ :=
  layers.map (fun l => l.thickness / ((nodesInLayer l : ℤ) : ℚ))

def dxArrOf (layers : List Layer) : List ℚ :=
  (layers.map (fun l =>
    List.replicate (nodesInLayer l).toNat (l.thickness / ((nodesInLayer l : ℤ) : ℚ)))).flatten

def firstNodesFrom : ℕ → List Layer → List ℕ
  | _, [] => []
  | s, l :: ls => s :: firstNodesFrom (s + (nodesInLayer l).toNat) ls

def mintsFrom : ℕ → List Layer → List ℕ
  | _, [] => []
  | s, l :: ls => ((s + (nodesInLayer l).toNat) - 1) :: mintsFrom (s + (nodesInLayer l).toNat) ls

/-- The explicit form of the grid `setup_grid` produces on a layer table that
passes all checks (proved in `setup_grid_ok`). -/
def gridOf (layers : List Layer) : Grid :=
  { n_layers := layers.length
    n_tot := totalNodes layers
    mat_nodes := matNodesOf layers
    nodes_per_layer := layerCounts layers
    mint_list := mintsFrom 0 layers
    first_node_list := firstNodesFrom 0 layers
    dx_list := dxListOf layers
    dx_arr := dxFill (dxListOf layers) (mintsFrom 0 layers) (totalNodes layers)
    internal_bounds :=
      [[1, (mintsFrom 0 layers).getD 0 0]] ++
        (List.range (layers.length - 1)).map
          (fun m => [(mintsFrom 0 layers).getD m 0 + 2, (mintsFrom 0 layers).getD (m + 1) 0])
    k_bounds :=
      [[0, (mintsFrom 0 layers).getD 0 0]] ++
        (List.range (layers.length - 1)).map
          (fun m => [(mintsFrom 0 layers).getD m 0 + 1, (mintsFrom 0 layers).getD (m + 1) 0])
    x_node := (List.range (totalNodes layers)).map
      (fun i => (dxFill (dxListOf layers) (mintsFrom 0 layers) (totalNodes layers)).getD i 0 / 2
        + ((dxFill (dxListOf layers) (mintsFrom 0 layers) (totalNodes layers)).take i).sum)
    layer_names := layers.map Layer.name }

/-! ## Reaction manager (`Source/reaction.py`)

The species arrays are keyed by name in a dict in the source; every access
goes through `species_name_list[j]`, so we index the rows by the species
position `j` (species names are distinct in any valid input).  The external
`reaction_system` objects are modelled by their callable behaviour
(`SysBehavior`), universally quantified in the theorems. -/

/-- `reaction_manager.small_number = 1.0e-15`. -/
def small_number : ℚ := 1 / 10^15

/-- The `Other` options block read by `reaction_manager.__init__`; optional
keys are `Option`s (`none` = key absent). -/
structure OtherOpts where
  y_dim : ℚ
  z_dim : ℚ
  dsc_mode : Option ℕ
  dsc_rate : Option ℚ
  rxn_only : Option Bool
deriving DecidableEq

/-- The data `reaction_manager.__init__` derives. -/
structure ManagerInit where
  n_tot : ℕ
  cross_area : ℚ
  dsc_info : ℕ × ℚ
  rxn_only : Bool
deriving DecidableEq

/-- `reaction_manager.__init__`: DSC-rate requirement and the
reaction-only / single-volume check. -/
def reaction_manager_init (grid : Grid) (opts : OtherOpts) :
    Except String ManagerInit :=
  let dsc_mode := opts.dsc_mode.getD 0
  if dsc_mode ≠ 0 ∧ opts.dsc_rate = none then
    .error "Please enter a DSC Rate in the Other block"
  else
    let dsc_rate := if dsc_mode ≠ 0 then opts.dsc_rate.getD 0 else 0
    let rxn_only := opts.rxn_only.getD false
    if rxn_only ∧ grid.n_tot ≠ 1 then
      .error "Multiple control volumes found in reaction only simulation. Check that dx is equal to the domain length."
    else
      .ok { n_tot := grid.n_tot
            cross_area := opts.y_dim * opts.z_dim
            dsc_info := (dsc_mode, dsc_rate)
            rxn_only := rxn_only }

/-- The species table consumed by `load_species`. -/
structure SpecDict where
  names : List String
  molecular_weights : List ℚ
  initial_mass_fraction : List ℚ
  material_name : String
deriving DecidableEq

/-- The external material manager's data for the reacting material:
`mat_man.get_material(name)` yields `rho` and `cp`. -/
structure RxnMatProps where
  rho : ℚ
  cp : ℚ
deriving DecidableEq

/-- The mutable per-node reactive state of the manager: species densities and
rates (one row per species, one column per node), temperature and
heat-release rates, the active node array and the list of positions (indices
into `active_nodes`) pending clearing. -/
structure RxnState where
  species_density : List (List ℚ)
  species_rate : List (List ℚ)
  temperature_rate : List ℚ
  heat_release_rate : List ℚ
  active_nodes : List ℕ
  inactive_node_list : List ℕ
deriving DecidableEq

instance : Inhabited RxnState := ⟨⟨[], [], [], [], [], []⟩⟩

/-- numpy slice assignment `key[a:b] = v`. -/
def setRange (key : List ℕ) (a b v : ℕ) : List ℕ :=
  key.mapIdx (fun i x => if a ≤ i ∧ i < b then v else x)

/-- The cell-counting loop of `load_species`: for every layer whose material
name matches the reacting material, bump the cell count and stamp it on that
layer's node range (`firsts` is `first_node_list` with `n_tot` appended). -/
def cellKeyGo (layer_names : List String) (firsts : List ℕ) (mat_name : String) :
    List ℕ → ℕ × List ℕ → ℕ × List ℕ
  | [], acc => acc
  | k :: ks, (n_cells, key) =>
    if mat_name = layer_names.getD k "" then
      cellKeyGo layer_names firsts mat_name ks
        (n_cells + 1, setRange key (firsts.getD k 0) (firsts.getD (k + 1) 0) (n_cells + 1))
    else
      cellKeyGo layer_names firsts mat_name ks (n_cells, key)

/-- Output of `load_species`. -/
structure LoadedSpecies where
  n_species : ℕ
  species_name_list : List String
  rho_cp : ℚ
  n_cells : ℕ
  cell_node_key : List ℕ
  state : RxnState
deriving DecidableEq

/-- `reaction_manager.load_species`.  The material manager's `layer_names` is
the same layer-table column the grid stores. -/
def load_species (grid : Grid) (spec : SpecDict) (mat : RxnMatProps) :
    Except String LoadedSpecies :=
  if spec.initial_mass_fraction.length ≠ spec.names.length then
    .error "Number of species names must match number of initial mass fractions"
  else if ¬ |1 - spec.initial_mass_fraction.sum| ≤ small_number then
    .error "Initial mass fractions do not sum to 1.0"
  else
    let n_species := spec.names.length
    let zeros_row := List.replicate grid.n_tot (0 : ℚ)
    let firsts := grid.first_node_list ++ [grid.n_tot]
    let ck := cellKeyGo grid.layer_names firsts spec.material_name
      (List.range grid.layer_names.length) (0, List.replicate grid.n_tot 0)
    .ok { n_species := n_species
          species_name_list := spec.names
          rho_cp := mat.rho * mat.cp
          n_cells := ck.1
          cell_node_key := ck.2
          state := { species_density := (List.range n_species).map (fun j =>
                       (List.range grid.n_tot).map (fun i =>
                         if spec.material_name = grid.mat_nodes.getD i "" then
                           spec.initial_mass_fraction.getD j 0 * mat.rho
                         else 0))
                     species_rate := (List.range n_species).map (fun _ => zeros_row)
                     temperature_rate := zeros_row
                     heat_release_rate := zeros_row
                     active_nodes := (List.range grid.n_tot).filter
                       (fun i => grid.mat_nodes.getD i "" = spec.material_name)
                     inactive_node_list := [] } }

/-- One reaction table entry, as consumed by `load_reactions`.  The external
`rxn_model_factory` output on this entry is its model (an opaque token `model`)
and its fractional-conversion column `frac_col`; `active_cells` is the
optional 1-indexed `Active Cells` list. -/
structure RxnInfo where
  model : ℕ
  frac_col : List ℚ
  active_cells : Option (List ℤ)
deriving DecidableEq

/-- A built reaction system: the constructor arguments the manager passes to
the external `reaction_system.reaction_system`. -/
structure BuiltSystem where
  frac_cols : List (List ℚ)
  models : List ℕ
  rho_cp : ℚ
  dsc_info : ℕ × ℚ
deriving DecidableEq

instance : Inhabited BuiltSystem := ⟨⟨[], [], 0, (0, 0)⟩⟩

/-- `sorted(rxn_dict.keys())`: iterate the reaction table in ascending key
order. -/
def sortedRxns (rxns : List (ℕ × RxnInfo)) : List (ℕ × RxnInfo) :=
  List.insertionSort (fun a b => a.1 ≤ b.1) rxns

/-- Build one reaction's activation row over the cells (`active_cells[i, :]`):
all ones when the reaction has no `Active Cells` entry, otherwise ones at the
listed (1-indexed) cells, with out-of-range and non-positive entries fatal. -/
def activeRow (n_cells : ℕ) (key : ℕ) (cells : Option (List ℤ)) :
    Except String (List ℕ) :=
  match cells with
  | none => .ok (List.replicate n_cells 1)
  | some cs => cs.foldlM (fun row cell_num =>
      if (n_cells : ℤ) < cell_num then
        .error ("Cell on reaction " ++ toString key ++ " does not exist.")
      else if cell_num < 1 then
        .error ("Cell number on reaction " ++ toString key ++ " must be greater than 1.")
      else
        .ok (row.set (cell_num - 1).toNat 1)) (List.replicate n_cells 0)

/-- The `active_cells` matrix (one row per reaction, in sorted key order). -/
def buildActiveCells (n_cells : ℕ) (sorted : List (ℕ × RxnInfo)) :
    Except String (List (List ℕ)) :=
  sorted.mapM (fun p => activeRow n_cells p.1 p.2.active_cells)

/-- Column `c` of the activation matrix: the activation pattern of cell `c`. -/
def colPattern (rows : List (List ℕ)) (c : ℕ) : List ℕ :=
  rows.map (fun r => r.getD c 0)

/-- Modelled from the spec: the position of an activation pattern in the list
of already-seen patterns ("treat the mask column as a key"). -/
def findPatternIdx (pat : List ℕ) : List (List ℕ) → Option ℕ
  | [] => none
  | q :: qs => if q = pat then some 0 else (findPatternIdx pat qs).map (· + 1)

/-- Modelled from the spec: part of `reaction_system_helper.map_all_systems`,
imported from `reaction_system_helper` which is not among the three core
source files.  Spec §4.3: "group cells by identical activation-mask vector
(treat the mask column as a key); each distinct key yields one reaction
system".  Scan the cells in order, giving each first-seen pattern the next
system index; record each cell's system index. -/
def uniqueSystemsGo (rows : List (List ℕ)) :
    List ℕ → List ℕ × List (List ℕ) → List ℕ × List (List ℕ)
  | [], acc => acc
  | c :: cs, (cell_map, uniq) =>
    match findPatternIdx (colPattern rows c) uniq with
    | some k => uniqueSystemsGo rows cs (cell_map ++ [k], uniq)
    | none => uniqueSystemsGo rows cs (cell_map ++ [uniq.length], uniq ++ [colPattern rows c])

/-- Modelled from the spec: the cell-grouping pass of
`reaction_system_helper.map_all_systems` (see `uniqueSystemsGo`). -/
def uniqueSystems (rows : List (List ℕ)) (n_cells : ℕ) : List ℕ × List (List ℕ) :=
  uniqueSystemsGo rows (List.range n_cells) ([], [])

/-- Modelled from the spec: `reaction_system_helper.map_all_systems` is
imported from `reaction_system_helper`, a module of this repository that is
not among the three core source files.  Spec §4.3 requires output "(a) a
node→system-index map ..., (b) a list of unique reaction systems", grouping
cells "by identical activation-mask vector"; spec §3 gives each node "a
mapping to its assigned reaction system index (−1 = unassigned = error)".
Every node carrying a cell key `c ≥ 1` maps to cell `c`'s system; nodes
outside the reacting material (cell key 0) are unassigned (−1). -/
def map_all_systems (rows : List (List ℕ)) (cell_node_key : List ℕ) (n_cells : ℕ) :
    List ℤ × List (List ℕ) :=
  let us := uniqueSystems rows n_cells
  (cell_node_key.map (fun c => if 1 ≤ c then ((us.1.getD (c - 1) 0 : ℕ) : ℤ) else -1), us.2)

/-- `[xs[j] for j in range(len(pat)) if pat[j]]`: select the entries whose
activation flag is set, in order. -/
def selectByPattern {α : Type} (pat : List ℕ) (xs : List α) : List α :=
  ((pat.zip xs).filter (fun p => p.1 ≠ 0)).map Prod.snd

/-- Output of `load_reactions`. -/
structure LoadedReactions where
  n_rxn : ℕ
  model_list : List ℕ
  frac_cols : List (List ℚ)
  active_cells : List (List ℕ)
  node_to_system_map : List ℤ
  unique_system_list : List (List ℕ)
  reaction_systems : List BuiltSystem
deriving DecidableEq

instance : Inhabited LoadedReactions := ⟨⟨0, [], [], [], [], [], []⟩⟩

/-- `reaction_manager.load_reactions`: build the models, the
fractional-conversion columns and the activation matrix in sorted key order,
group the cells into unique reaction systems, and build one reduced system
per unique activation pattern. -/
def load_reactions (n_cells : ℕ) (cell_node_key : List ℕ) (rho_cp : ℚ)
    (dsc_info : ℕ × ℚ) (rxns : List (ℕ × RxnInfo)) :
    Except String LoadedReactions := do
  let sorted := sortedRxns rxns
  let rows ← buildActiveCells n_cells sorted
  let model_list := sorted.map (fun p => p.2.model)
  let frac_cols := sorted.map (fun p => p.2.frac_col)
  let ms := map_all_systems rows cell_node_key n_cells
  .ok { n_rxn := rxns.length
        model_list := model_list
        frac_cols := frac_cols
        active_cells := rows
        node_to_system_map := ms.1
        unique_system_list := ms.2
        reaction_systems := ms.2.map (fun pat =>
          { frac_cols := selectByPattern pat frac_cols
            models := selectByPattern pat model_list
            rho_cp := rho_cp
            dsc_info := dsc_info }) }

/-- The callable behaviour of an external `reaction_system` object, as used by
`solve_ode_all_nodes`: `solve_ode_node` (the solution's last row `my_sol[-1,:]`
together with the integration status) plus `get_rates` and `check_complete`. -/
structure SysBehavior where
  solveNode : List ℚ → List ℚ → List ℚ × ℤ
  getRates : List ℚ → List ℚ
  checkComplete : List ℚ → Bool

instance : Inhabited SysBehavior :=
  ⟨⟨fun _ v => (v, 0), fun _ => [], fun _ => false⟩⟩

/-- The static configuration `solve_ode_all_nodes` reads. -/
structure SolveConfig where
  n_species : ℕ
  node_to_system_map : List ℤ
  rho_cp : ℚ
deriving DecidableEq

instance : Inhabited SolveConfig := ⟨⟨0, [], 0⟩⟩

/-- The per-species write-back loop `mat[j][i] = vals[j]` for
`j < n_species`. -/
def setColumn (n_species i : ℕ) (vals : List ℚ) (mat : List (List ℚ)) :
    List (List ℚ) :=
  (List.range n_species).foldl
    (fun m j => m.set j ((m.getD j []).set i (vals.getD j 0))) mat

/-- Clear one pending node (`clear_nodes` loop body): snap its sub-threshold
species densities to zero and zero all its rates. -/
def clearOne (st : RxnState) (act_ind : ℕ) : RxnState :=
  let i := st.active_nodes.getD act_ind 0
  { st with
    species_density := st.species_density.map (fun row =>
      if row.getD i 0 < small_number then row.set i 0 else row)
    species_rate := st.species_rate.map (fun row => row.set i 0)
    temperature_rate := st.temperature_rate.set i 0
    heat_release_rate := st.heat_release_rate.set i 0 }

/-- `np.delete(arr, positions)`: drop the entries at the listed positions. -/
def deleteAt {α : Type} (l : List α) (positions : List ℕ) : List α :=
  (l.enum.filter (fun p => p.1 ∉ positions)).map Prod.snd

/-- `reaction_manager.clear_nodes`. -/
def clear_nodes (st : RxnState) : RxnState :=
  let st1 := st.inactive_node_list.foldl clearOne st
  { st1 with
    active_nodes := deleteAt st1.active_nodes st1.inactive_node_list
    inactive_node_list := [] }

/-- One iteration of the active-node loop of `solve_ode_all_nodes`: look up
the node's reaction system (a negative index raises), assemble the state
vector (species densities then temperature), integrate, write back densities,
rates and temperature, and record completion. -/
def solveNodeStep (cfg : SolveConfig) (systems : List SysBehavior) (t_arr : List ℚ)
    (T_in : List ℚ) (return_err : Bool)
    (acc : List ℚ × RxnState × List ℤ) (act_ind : ℕ) :
    Except String (List ℚ × RxnState × List ℤ) :=
  let T_out := acc.1
  let st := acc.2.1
  let err_list := acc.2.2
  let i := st.active_nodes.getD act_ind 0
  let sys_ind := cfg.node_to_system_map.getD i 0
  if sys_ind < 0 then
    .error ("No reaction system specified on node " ++ toString i ++ ".")
  else
    let sys := systems.getD sys_ind.toNat default
    let v_in := (List.range cfg.n_species).map
        (fun j => (st.species_density.getD j []).getD i 0) ++ [T_in.getD i 0]
    let sol := sys.solveNode t_arr v_in
    let v_out := sol.1
    let errs := if return_err then err_list ++ [sol.2] else err_list
    let rate_arr := sys.getRates v_out
    .ok (T_out.set i (v_out.getLast?.getD 0),
      { st with
        species_density := setColumn cfg.n_species i v_out st.species_density
        species_rate := setColumn cfg.n_species i rate_arr st.species_rate
        temperature_rate := st.temperature_rate.set i (rate_arr.getLast?.getD 0)
        heat_release_rate := st.heat_release_rate.set i
          ((rate_arr.getLast?.getD 0) * cfg.rho_cp)
        inactive_node_list := if sys.checkComplete v_out
          then st.inactive_node_list ++ [act_ind] else st.inactive_node_list },
      errs)

/-- `reaction_manager.solve_ode_all_nodes`: copy the temperatures, clear the
nodes deactivated by the previous call, then integrate every active node in
order.  Returns the new temperatures, the new manager state and the collected
per-node statuses. -/
def solve_ode_all_nodes (cfg : SolveConfig) (systems : List SysBehavior)
    (t_arr : List ℚ) (T_in : List ℚ) (return_err : Bool) (st : RxnState) :
    Except String (List ℚ × RxnState × List ℤ) :=
  let st1 := if st.inactive_node_list ≠ [] then clear_nodes st else st
  (List.range st1.active_nodes.length).foldlM
    (solveNodeStep cfg systems t_arr T_in return_err) (T_in, st1, [])

/-- A full configuration: the layer table, other options, species table with
material properties, and reaction table. -/
structure Config where
  layers : List Layer
  opts : OtherOpts
  spec : SpecDict
  mat : RxnMatProps
  rxns : List (ℕ × RxnInfo)
deriving DecidableEq

/-- The whole setup phase: `set_table`/`setup_grid`, `reaction_manager`
construction, `load_species`, `load_reactions`. -/
def setup_pipeline (c : Config) :
    Except String (SolveConfig × RxnState × List BuiltSystem) := do
  let g ← setup_grid c.layers
  let mi ← reaction_manager_init g c.opts
  let ls ← load_species g c.spec c.mat
  let lr ← load_reactions ls.n_cells ls.cell_node_key ls.rho_cp mi.dsc_info c.rxns
  .ok ({ n_species := ls.n_species
         node_to_system_map := lr.node_to_system_map
         rho_cp := ls.rho_cp }, ls.state, lr.reaction_systems)

/-- The states reachable from `st0` by repeated `solve_ode_all_nodes` calls
(with arbitrary time points, input temperatures, flags and integrator
behaviour). -/
inductive ReachableFrom (cfg : SolveConfig) : RxnState → RxnState → Prop
  | refl (st : RxnState) : ReachableFrom cfg st st
  | step {st st1 st2 : RxnState} {systems : List SysBehavior} {t_arr T_in : List ℚ}
      {flag : Bool} {T_out : List ℚ} {errs : List ℤ} :
      ReachableFrom cfg st st1 →
      solve_ode_all_nodes cfg systems t_arr T_in flag st1 = .ok (T_out, st2, errs) →
      ReachableFrom cfg st st2

/-- A small complete configuration: one layer of two nodes, one species, one
reaction active everywhere. -/
def exampleConfig : Config :=
  { layers := [⟨"A", 1/2, 1⟩]
    opts := ⟨1, 1, none, none, none⟩
    spec := ⟨["X"], [1], [1], "A"⟩
    mat := ⟨2, 3⟩
    rxns := [(1, ⟨0, [-1], none⟩)] }

/-- A concrete integrator behaviour for evaluating the node lifecycle: the
state is returned unchanged, the rates are nonzero and completion always
holds. -/
def lifecycleBeh : SysBehavior :=
  ⟨fun _ v => (v, 0), fun _ => [2, 3], fun _ => true⟩

def lifecycleCfg : SolveConfig := ⟨1, [0], 1⟩

/-- A single-node state whose only species sits below `small_number`. -/
def lifecycleSt0 : RxnState := ⟨[[1 / 10^16]], [[5]], [7], [9], [0], []⟩

def lifecycleRun1 : List ℚ × RxnState × List ℤ :=
  (solve_ode_all_nodes lifecycleCfg [lifecycleBeh] [0] [300] false
    lifecycleSt0).toOption.getD default

def lifecycleRun2 : List ℚ × RxnState × List ℤ :=
  (solve_ode_all_nodes lifecycleCfg [lifecycleBeh] [0] [400] false
    lifecycleRun1.2.1).toOption.getD default

/-! ## Theorems: boundary operators (claims C5, C7, C8) -/

/-- **C5**: for `end_radiation` built by `set_params(eps, T_ext)`, for every
temperature field `T`, the contribution `apply_operator` adds to `RHS` at the
boundary node is exactly the negation of the residual contribution `apply` adds
to `F` at that node; both have magnitude `sigma*eps*(T^4 - T_ext^4)`; `apply`
also adds the Jacobian term `4*sigma*eps*T^3` to `J_c`; and when the boundary
temperature equals `T_ext`, both the residual contribution of `apply` and the
RHS contribution of `apply_operator` are exactly zero. -/
theorem end_radiation_operator_negates_residual (base : EndBC) (eps T_ext : ℚ)
    (sys : EqnSys) (mat : MatMan) (T : ℕ → ℚ) :
    (end_radiation_apply_operator (end_radiation_set_params base eps T_ext) sys mat T).RHS
        base.n_ind - sys.RHS base.n_ind
      = -((end_radiation_apply (end_radiation_set_params base eps T_ext) sys mat T).F
        base.n_ind - sys.F base.n_ind)
    ∧ (end_radiation_apply (end_radiation_set_params base eps T_ext) sys mat T).F
        base.n_ind - sys.F base.n_ind
      = (567 / 10^10) * eps * ((T base.n_ind)^4 - T_ext^4)
    ∧ (end_radiation_apply (end_radiation_set_params base eps T_ext) sys mat T).J_c
        base.n_ind - sys.J_c base.n_ind
      = 4 * ((567 / 10^10) * eps) * (T base.n_ind)^3
    ∧ (T base.n_ind = T_ext →
        (end_radiation_apply (end_radiation_set_params base eps T_ext) sys mat T).F
          base.n_ind = sys.F base.n_ind
        ∧ (end_radiation_apply_operator (end_radiation_set_params base eps T_ext) sys
            mat T).RHS base.n_ind = sys.RHS base.n_ind) := by
  refine ⟨?_, ?_, ?_, fun hT => ⟨?_, ?_⟩⟩
  · simp only [end_radiation_apply, end_radiation_apply_operator,
      end_radiation_set_params, addAt, eq_self_iff_true, if_true]
    ring
  · simp only [end_radiation_apply, end_radiation_set_params, addAt,
      eq_self_iff_true, if_true]
    ring
  · simp only [end_radiation_apply, end_radiation_set_params, addAt,
      eq_self_iff_true, if_true]
    ring
  · simp [end_radiation_apply, end_radiation_set_params, addAt, hT]
  · simp [end_radiation_apply_operator, end_radiation_set_params, addAt, hT]

/-- Witness for C5 at a concrete radiation boundary (`eps = 1`,
`T_ext = 300`, uniform field `T = 300`, zero equation system). -/
theorem end_radiation_operator_negates_residual_witness :
    ((end_radiation_apply (end_radiation_set_params ⟨[1], 1, 0, 0⟩ 1 300)
        ⟨fun _ => 0, fun _ => 0, fun _ => 0, fun _ => 0⟩ ⟨fun _ => 1⟩ (fun _ => 300)).F 0
      = (⟨fun _ => 0, fun _ => 0, fun _ => 0, fun _ => 0⟩ : EqnSys).F 0)
    ∧ ((end_radiation_apply_operator (end_radiation_set_params ⟨[1], 1, 0, 0⟩ 1 300)
        ⟨fun _ => 0, fun _ => 0, fun _ => 0, fun _ => 0⟩ ⟨fun _ => 1⟩ (fun _ => 300)).RHS 0
      = (⟨fun _ => 0, fun _ => 0, fun _ => 0, fun _ => 0⟩ : EqnSys).RHS 0) :=
  (end_radiation_operator_negates_residual ⟨[1], 1, 0, 0⟩ 1 300
    ⟨fun _ => 0, fun _ => 0, fun _ => 0, fun _ => 0⟩ ⟨fun _ => 1⟩ (fun _ => 300)).2.2.2 rfl

/-- **C8**: for `end_flux` with flux value `q`, `apply` and `apply_operator`
produce identical systems: both add exactly `q` to the RHS entry of the
boundary node, touch no other RHS entry, and leave the LHS diagonal, the
Jacobian and the residual unchanged. -/
theorem end_flux_apply_operator_agree (base : EndBC) (q : ℚ) (sys : EqnSys)
    (mat : MatMan) (T : ℕ → ℚ) :
    end_flux_apply ⟨base, q⟩ sys = end_flux_apply_operator ⟨base, q⟩ sys T
    ∧ (end_flux_apply ⟨base, q⟩ sys).RHS base.n_ind = sys.RHS base.n_ind + q
    ∧ (∀ i, i ≠ base.n_ind → (end_flux_apply ⟨base, q⟩ sys).RHS i = sys.RHS i)
    ∧ (end_flux_apply ⟨base, q⟩ sys).LHS_c = sys.LHS_c
    ∧ (end_flux_apply ⟨base, q⟩ sys).J_c = sys.J_c
    ∧ (end_flux_apply ⟨base, q⟩ sys).F = sys.F := by
  refine ⟨rfl, ?_, fun i hi => ?_, rfl, rfl, rfl⟩
  · simp [end_flux_apply, addAt]
  · simp [end_flux_apply, addAt, hi]

/-- Witness for C8 at a concrete flux boundary (`flux = 5`, zero system),
checking the off-node frame clause at node `1 ≠ 0`. -/
theorem end_flux_apply_operator_agree_witness :
    (end_flux_apply ⟨⟨[1], 1, 0, 0⟩, 5⟩ ⟨fun _ => 0, fun _ => 0, fun _ => 0, fun _ => 0⟩).RHS 1
      = (⟨fun _ => 0, fun _ => 0, fun _ => 0, fun _ => 0⟩ : EqnSys).RHS 1 :=
  (end_flux_apply_operator_agree ⟨[1], 1, 0, 0⟩ 5
    ⟨fun _ => 0, fun _ => 0, fun _ => 0, fun _ => 0⟩ ⟨fun _ => 1⟩ (fun _ => 300)).2.2.1 1
    (by decide)

/-- **C7**: a `timed_boundary` gate forwards `apply` / `apply_operator` to the
wrapped boundary condition if and only if `off_time - tot_time > 1e-14`, and
otherwise leaves the equation system completely unchanged; in particular with
`off_time = 10`, `apply` at `tot_time = 9.999999999999` invokes the wrapped
condition and `apply` at `tot_time = 10` is a no-op. -/
theorem timed_boundary_gate (off tot : ℚ) (bcA : EqnSys → EqnSys)
    (bcOp : EqnSys → (ℕ → ℚ) → EqnSys) (sys : EqnSys) (T : ℕ → ℚ) :
    (1/10^14 < off - tot →
      timed_apply ⟨off, tot⟩ bcA sys = bcA sys
      ∧ timed_apply_operator ⟨off, tot⟩ bcOp sys T = bcOp sys T)
    ∧ (¬ 1/10^14 < off - tot →
      timed_apply ⟨off, tot⟩ bcA sys = sys
      ∧ timed_apply_operator ⟨off, tot⟩ bcOp sys T = sys)
    ∧ timed_apply ⟨10, 9999999999999/10^12⟩ bcA sys = bcA sys
    ∧ timed_apply ⟨10, 10⟩ bcA sys = sys := by
  refine ⟨fun h => ⟨?_, ?_⟩, fun h => ⟨?_, ?_⟩, ?_, ?_⟩
  · simp only [timed_apply]
    rw [if_pos h]
  · simp only [timed_apply_operator]
    rw [if_pos h]
  · simp only [timed_apply]
    rw [if_neg h]
  · simp only [timed_apply_operator]
    rw [if_neg h]
  · simp only [timed_apply]
    rw [if_pos (by norm_num)]
  · simp only [timed_apply]
    rw [if_neg (by norm_num)]

/-- Witness for C7: both branches of the gate at concrete times, with the
identity function as the wrapped `apply`. -/
theorem timed_boundary_gate_witness :
    timed_apply ⟨10, 0⟩ (fun s => s) ⟨fun _ => 0, fun _ => 0, fun _ => 0, fun _ => 0⟩
      = (⟨fun _ => 0, fun _ => 0, fun _ => 0, fun _ => 0⟩ : EqnSys)
    ∧ timed_apply ⟨10, 10⟩ (fun s => s) ⟨fun _ => 0, fun _ => 0, fun _ => 0, fun _ => 0⟩
      = (⟨fun _ => 0, fun _ => 0, fun _ => 0, fun _ => 0⟩ : EqnSys) :=
  ⟨((timed_boundary_gate 10 0 (fun s => s) (fun s _ => s)
      ⟨fun _ => 0, fun _ => 0, fun _ => 0, fun _ => 0⟩ (fun _ => 0)).1 (by norm_num)).1,
   ((timed_boundary_gate 10 10 (fun s => s) (fun s _ => s)
      ⟨fun _ => 0, fun _ => 0, fun _ => 0, fun _ => 0⟩ (fun _ => 0)).2.1 (by norm_num)).1⟩

/-! ## Theorems: grid construction (claims C3, C4, C10) -/

theorem floor_le_roundHalfEven (q : ℚ) : ⌊q⌋ ≤ roundHalfEven q := by
  unfold roundHalfEven
  dsimp only
  split
  · exact le_refl _
  · split
    · omega
    · split <;> omega

theorem one_le_nodesInLayer (l : Layer) (hdx : 0 < l.dx) (hth : l.dx ≤ l.thickness) :
    1 ≤ nodesInLayer l := by
  have h1 : (1 : ℚ) ≤ l.thickness / l.dx := (one_le_div hdx).mpr hth
  have h2 : (1 : ℤ) ≤ ⌊l.thickness / l.dx⌋ := Int.le_floor.mpr (by exact_mod_cast h1)
  have := floor_le_roundHalfEven (l.thickness / l.dx)
  unfold nodesInLayer
  omega

/-- Running the layer loop from any accumulator, on a table whose layers all
pass the thickness check, appends the explicit per-layer data. -/
theorem gridFold_ok (layers : List Layer) (acc : GridAcc)
    (h : ∀ l ∈ layers, ¬ l.thickness < l.dx) :
    layers.foldlM gridStep acc = .ok
      { n_tot := acc.n_tot + totalNodes layers
        mat_nodes := acc.mat_nodes ++ matNodesOf layers
        nodes_per_layer := acc.nodes_per_layer ++ layerCounts layers
        mint_list := acc.mint_list ++ mintsFrom acc.n_tot layers
        first_node_list := acc.first_node_list ++ firstNodesFrom acc.n_tot layers
        dx_list := acc.dx_list ++ dxListOf layers } := by
  induction layers generalizing acc with
  | nil =>
    obtain ⟨a1, a2, a3, a4, a5, a6⟩ := acc
    simp [totalNodes, matNodesOf, layerCounts, mintsFrom, firstNodesFrom, dxListOf]
    rfl
  | cons l ls ih =>
    have hl : ¬ l.thickness < l.dx := h l (List.mem_cons_self l ls)
    rw [List.foldlM_cons, gridStep, if_neg hl]
    show ls.foldlM gridStep _ = _
    rw [ih _ (fun x hx => h x (List.mem_cons_of_mem l hx))]
    refine congrArg Except.ok ?_
    simp [GridAcc.mk.injEq, totalNodes, matNodesOf, layerCounts, dxListOf,
      mintsFrom, firstNodesFrom, List.append_assoc, Nat.add_assoc]

/-- The layer loop raises as soon as some layer fails the thickness check. -/
theorem gridFold_error (layers : List Layer) (acc : GridAcc)
    (h : ∃ l ∈ layers, l.thickness < l.dx) :
    ∃ e, layers.foldlM gridStep acc = .error e := by
  induction layers generalizing acc with
  | nil => simp at h
  | cons l ls ih =>
    rw [List.foldlM_cons]
    by_cases hl : l.thickness < l.dx
    · rw [gridStep, if_pos hl]
      exact ⟨_, rfl⟩
    · rw [gridStep, if_neg hl]
      obtain ⟨l', hl', hv⟩ := h
      rcases List.mem_cons.mp hl' with rfl | hmem
      · exact absurd hv hl
      · exact ih _ ⟨l', hmem, hv⟩

/-- `setup_grid` on a table that passes the thickness checks and the
single-node-layer check produces exactly `gridOf layers`. -/
theorem setup_grid_ok (layers : List Layer)
    (h1 : ∀ l ∈ layers, ¬ l.thickness < l.dx)
    (h2 : ¬(1 < layers.length ∧ ∃ n ∈ layerCounts layers, n ≤ 1)) :
    setup_grid layers = .ok (gridOf layers) := by
  unfold setup_grid
  rw [gridFold_ok layers _ h1]
  show (if _ then _ else _) = _
  rw [if_neg (by simpa using h2)]
  simp [gridOf]

/-- One layer's worth of iterations of the `dx_arr` loop: while the interface
node `mint_list[m] = i + k` has not been passed, the loop copies
`dx_list[m]` and keeps `m`; at the interface it advances `m`. -/
theorem dxFillGo_layer (ds : List ℚ) (ms : List ℕ) :
    ∀ (k i m fuel : ℕ), ms.getD m 0 = i + k →
      dxFillGo ds ms i m (k + 1 + fuel)
        = List.replicate (k + 1) (ds.getD m 0) ++ dxFillGo ds ms (i + k + 1) (m + 1) fuel := by
  intro k
  induction k with
  | zero =>
    intro i m fuel hm
    rw [show 0 + 1 + fuel = fuel + 1 from by omega]
    rw [dxFillGo]
    rw [if_pos (by omega)]
    simp
  | succ k ih =>
    intro i m fuel hm
    rw [show k + 1 + 1 + fuel = (k + 1 + fuel) + 1 from by omega]
    rw [dxFillGo]
    rw [if_neg (by omega)]
    rw [ih (i + 1) m fuel (by omega)]
    rw [show i + 1 + k + 1 = i + (k + 1) + 1 from by omega]
    simp [List.replicate_succ]

/-- The `dx_arr` loop, started at the beginning of a layer (global node index
`s`, layer index `m` equal to the number of already-consumed `dx_list` /
`mint_list` entries), produces the per-layer replication of the actual
spacings. -/
theorem dxFillGo_all :
    ∀ (tail : List Layer) (preD : List ℚ) (preM : List ℕ) (s : ℕ),
      preD.length = preM.length →
      (∀ l ∈ tail, 0 < (nodesInLayer l).toNat) →
      dxFillGo (preD ++ dxListOf tail) (preM ++ mintsFrom s tail) s preD.length
          (totalNodes tail)
        = dxArrOf tail := by
  intro tail
  induction tail with
  | nil =>
    intro preD preM s _ _
    simp [totalNodes, dxArrOf, dxFillGo]
  | cons l ls ih =>
    intro preD preM s hlen hpos
    have hc : 0 < (nodesInLayer l).toNat := hpos l (List.mem_cons_self l ls)
    obtain ⟨c, hc'⟩ : ∃ c, (nodesInLayer l).toNat = c + 1 :=
      ⟨(nodesInLayer l).toNat - 1, by omega⟩
    have htot : totalNodes (l :: ls) = c + 1 + totalNodes ls := by
      simp [totalNodes, hc']
    have hD : dxListOf (l :: ls)
        = l.thickness / ((nodesInLayer l : ℤ) : ℚ) :: dxListOf ls := by
      simp [dxListOf]
    have hM : mintsFrom s (l :: ls) = (s + c) :: mintsFrom (s + (c + 1)) ls := by
      show ((s + (nodesInLayer l).toNat) - 1) :: mintsFrom (s + (nodesInLayer l).toNat) ls = _
      rw [hc', show (s + (c + 1)) - 1 = s + c from by omega]
    have hgetD : (preD ++ dxListOf (l :: ls)).getD preD.length 0
        = l.thickness / ((nodesInLayer l : ℤ) : ℚ) := by
      rw [List.getD_append_right _ _ _ _ (le_refl _), Nat.sub_self, hD]
      rfl
    have hgetM : (preM ++ mintsFrom s (l :: ls)).getD preD.length 0 = s + c := by
      rw [hlen, List.getD_append_right _ _ _ _ (le_refl _), Nat.sub_self, hM]
      rfl
    rw [htot, dxFillGo_layer _ _ c s preD.length (totalNodes ls) hgetM, hgetD]
    have hre : preD ++ dxListOf (l :: ls)
        = (preD ++ [l.thickness / ((nodesInLayer l : ℤ) : ℚ)]) ++ dxListOf ls := by
      rw [hD, List.append_assoc, List.singleton_append]
    have hrm : preM ++ mintsFrom s (l :: ls)
        = (preM ++ [s + c]) ++ mintsFrom (s + (c + 1)) ls := by
      rw [hM, List.append_assoc, List.singleton_append]
    rw [hre, hrm]
    rw [show s + c + 1 = s + (c + 1) from by omega,
      show preD.length + 1 = (preD ++ [l.thickness / ((nodesInLayer l : ℤ) : ℚ)]).length from by
        simp]
    rw [ih (preD ++ [l.thickness / ((nodesInLayer l : ℤ) : ℚ)]) (preM ++ [s + c]) (s + (c + 1))
      (by simp [hlen]) (fun x hx => hpos x (List.mem_cons_of_mem l hx))]
    simp [dxArrOf, hc']

/-- On a table whose layers all resolve to at least one node, the `dx_arr`
loop of `setup_grid` produces the concatenation of each layer's actual spacing
replicated over its nodes. -/
theorem dxFill_eq_dxArrOf (layers : List Layer)
    (hpos : ∀ l ∈ layers, 0 < (nodesInLayer l).toNat) :
    dxFill (dxListOf layers) (mintsFrom 0 layers) (totalNodes layers) = dxArrOf layers := by
  have := dxFillGo_all layers [] [] 0 rfl hpos
  simpa [dxFill] using this

theorem firstNodesFrom_length (ls : List Layer) :
    ∀ s, (firstNodesFrom s ls).length = ls.length := by
  induction ls with
  | nil => intro s; rfl
  | cons l ls ih => intro s; simp [firstNodesFrom, ih]

theorem firstNodesFrom_ge (ls : List Layer) :
    ∀ (s k : ℕ), k < ls.length → s ≤ (firstNodesFrom s ls).getD k 0 := by
  induction ls with
  | nil =>
    intro s k hk
    simp at hk
  | cons l ls ih =>
    intro s k hk
    cases k with
    | zero => exact le_refl s
    | succ k =>
      have h := ih (s + (nodesInLayer l).toNat) k (by simpa using hk)
      exact le_trans (Nat.le_add_right s _) h

theorem range_map_getD (f : ℕ → ℚ) (n i : ℕ) (h : i < n) :
    ((List.range n).map f).getD i 0 = f i := by
  rw [List.getD_eq_getElem _ _ (by simpa using h)]
  simp

theorem dxArrOf_length (layers : List Layer) :
    (dxArrOf layers).length = totalNodes layers := by
  induction layers with
  | nil => rfl
  | cons l ls ih =>
    simp only [dxArrOf, totalNodes, List.map_cons, List.flatten_cons, List.length_append,
      List.length_replicate, List.sum_cons] at ih ⊢
    omega

/-- Inside layer `k`'s node range, `dx_arr` holds that layer's actual spacing
`thickness / node-count`. -/
theorem dxArrOf_in_layer (layers : List Layer) :
    ∀ (s k : ℕ), k < layers.length →
      ∀ t, t < (nodesInLayer (layers.getD k default)).toNat →
      (dxArrOf layers).getD ((firstNodesFrom s layers).getD k 0 - s + t) 0
        = (layers.getD k default).thickness
            / ((nodesInLayer (layers.getD k default) : ℤ) : ℚ) := by
  induction layers with
  | nil =>
    intro s k hk
    simp at hk
  | cons l ls ih =>
    intro s k hk t ht
    cases k with
    | zero =>
      show (dxArrOf (l :: ls)).getD (s - s + t) 0 = _
      rw [Nat.sub_self, Nat.zero_add]
      have hlen : t < (List.replicate (nodesInLayer l).toNat
          (l.thickness / ((nodesInLayer l : ℤ) : ℚ))).length := by
        simpa using ht
      rw [show dxArrOf (l :: ls)
          = List.replicate (nodesInLayer l).toNat
              (l.thickness / ((nodesInLayer l : ℤ) : ℚ)) ++ dxArrOf ls from by
            simp [dxArrOf]]
      rw [List.getD_append _ _ _ _ hlen, List.getD_eq_getElem _ _ hlen]
      simp
    | succ k =>
      have hk' : k < ls.length := by simpa using hk
      have hF : (firstNodesFrom s (l :: ls)).getD (k + 1) 0
          = (firstNodesFrom (s + (nodesInLayer l).toNat) ls).getD k 0 := rfl
      have hge : s + (nodesInLayer l).toNat
          ≤ (firstNodesFrom (s + (nodesInLayer l).toNat) ls).getD k 0 :=
        firstNodesFrom_ge ls _ k hk'
      have hidx : (firstNodesFrom s (l :: ls)).getD (k + 1) 0 - s + t
          = (nodesInLayer l).toNat
            + ((firstNodesFrom (s + (nodesInLayer l).toNat) ls).getD k 0
                - (s + (nodesInLayer l).toNat) + t) := by
        rw [hF]
        omega
      rw [hidx]
      rw [show dxArrOf (l :: ls)
          = List.replicate (nodesInLayer l).toNat
              (l.thickness / ((nodesInLayer l : ℤ) : ℚ)) ++ dxArrOf ls from by
            simp [dxArrOf]]
      rw [List.getD_append_right _ _ _ _ (by simp)]
      simp only [List.length_replicate, Nat.add_sub_cancel_left]
      exact ih (s + (nodesInLayer l).toNat) k hk' t (by simpa using ht)

theorem dxArrOf_pos (layers : List Layer) (hdx : ∀ l ∈ layers, 0 < l.dx)
    (hth : ∀ l ∈ layers, l.dx ≤ l.thickness) :
    ∀ q ∈ dxArrOf layers, 0 < q := by
  intro q hq
  rw [dxArrOf, List.mem_flatten] at hq
  obtain ⟨lst, hlst, hql⟩ := hq
  rw [List.mem_map] at hlst
  obtain ⟨l, hl, rfl⟩ := hlst
  rw [List.eq_of_mem_replicate hql]
  have h1 : (1 : ℤ) ≤ nodesInLayer l := one_le_nodesInLayer l (hdx l hl) (hth l hl)
  have hT : 0 < l.thickness := lt_of_lt_of_le (hdx l hl) (hth l hl)
  exact div_pos hT (by exact_mod_cast lt_of_lt_of_le Int.one_pos h1)

theorem dxArrOf_sum (layers : List Layer) (hpos : ∀ l ∈ layers, 1 ≤ nodesInLayer l) :
    (dxArrOf layers).sum = (layers.map Layer.thickness).sum := by
  induction layers with
  | nil => simp [dxArrOf]
  | cons l ls ih =>
    have h1 : 1 ≤ nodesInLayer l := hpos l (List.mem_cons_self l ls)
    have hne : ((nodesInLayer l : ℤ) : ℚ) ≠ 0 := by
      exact_mod_cast ne_of_gt (lt_of_lt_of_le Int.one_pos h1)
    have hstep : dxArrOf (l :: ls)
        = List.replicate (nodesInLayer l).toNat
            (l.thickness / ((nodesInLayer l : ℤ) : ℚ)) ++ dxArrOf ls := by
      simp [dxArrOf]
    rw [hstep, List.sum_append, List.sum_replicate,
      ih (fun x hx => hpos x (List.mem_cons_of_mem l hx))]
    have hcast : (((nodesInLayer l).toNat : ℚ)) = ((nodesInLayer l : ℤ) : ℚ) := by
      rw [show ((nodesInLayer l).toNat : ℚ) = (((nodesInLayer l).toNat : ℤ) : ℚ) from by
        push_cast; ring]
      rw [Int.toNat_of_nonneg (by omega)]
    simp only [nsmul_eq_mul, List.map_cons, List.sum_cons, hcast]
    field_simp

/-- The single-node-layer check of `setup_grid` fires exactly when there are
several layers and one of them resolved to at most one node. -/
theorem setup_grid_single_node_error (layers : List Layer)
    (h1 : ∀ l ∈ layers, ¬ l.thickness < l.dx)
    (h2 : 1 < layers.length ∧ ∃ n ∈ layerCounts layers, n ≤ 1) :
    setup_grid layers
      = .error "Only 1 control volume on layer(s)! Minimum of 2 control volumes required for conduction problems." := by
  unfold setup_grid
  rw [gridFold_ok layers _ h1]
  show (if _ then _ else _) = _
  rw [if_pos (by simpa using h2)]

/-- A successful `setup_grid` result is exactly `gridOf layers`. -/
theorem setup_grid_ok_elim (layers : List Layer) (g : Grid)
    (h1 : ∀ l ∈ layers, ¬ l.thickness < l.dx)
    (hok : setup_grid layers = .ok g) : g = gridOf layers := by
  by_cases h2 : 1 < layers.length ∧ ∃ n ∈ layerCounts layers, n ≤ 1
  · rw [setup_grid_single_node_error layers h1 h2] at hok
    exact absurd hok (by simp)
  · rw [setup_grid_ok layers h1 h2] at hok
    exact (Except.ok.inj hok).symm

theorem layerCounts_getD (layers : List Layer) (k : ℕ) (hk : k < layers.length) :
    (layerCounts layers).getD k 0 = nodesInLayer (layers.getD k default) := by
  rw [layerCounts, List.getD_eq_getElem _ _ (by simpa [layerCounts] using hk),
    List.getElem_map, List.getD_eq_getElem _ _ hk]

theorem dxListOf_getD (layers : List Layer) (k : ℕ) (hk : k < layers.length) :
    (dxListOf layers).getD k 0
      = (layers.getD k default).thickness
          / ((nodesInLayer (layers.getD k default) : ℤ) : ℚ) := by
  rw [dxListOf, List.getD_eq_getElem _ _ (by simpa [dxListOf] using hk),
    List.getElem_map, List.getD_eq_getElem _ _ hk]

/-- **C3**: on any layer table whose layers all satisfy `0 < dx ≤ thickness`
and on which `setup_grid` succeeds, every layer resolves to
`round(thickness/dx)` nodes, every node of that layer gets spacing
`thickness / node-count` (so count × actual spacing is the layer thickness
exactly), node positions are half the local spacing plus the sum of all
spacings to the left, positions are strictly increasing, and the last node's
right edge equals the total domain thickness. -/
theorem grid_spacing_and_positions (layers : List Layer) (g : Grid)
    (hdx : ∀ l ∈ layers, 0 < l.dx) (hth : ∀ l ∈ layers, l.dx ≤ l.thickness)
    (hok : setup_grid layers = .ok g) :
    (∀ k, k < layers.length →
      g.nodes_per_layer.getD k 0
          = roundHalfEven ((layers.getD k default).thickness / (layers.getD k default).dx)
      ∧ (g.nodes_per_layer.getD k 0 : ℚ) * g.dx_list.getD k 0
          = (layers.getD k default).thickness
      ∧ ∀ i, g.first_node_list.getD k 0 ≤ i →
          i < g.first_node_list.getD k 0 + (g.nodes_per_layer.getD k 0).toNat →
          g.dx_arr.getD i 0
            = (layers.getD k default).thickness / ((g.nodes_per_layer.getD k 0 : ℤ) : ℚ))
    ∧ (∀ i, i < g.n_tot →
        g.x_node.getD i 0 = g.dx_arr.getD i 0 / 2 + (g.dx_arr.take i).sum)
    ∧ (∀ i, i + 1 < g.n_tot → g.x_node.getD i 0 < g.x_node.getD (i + 1) 0)
    ∧ (0 < g.n_tot →
        g.x_node.getD (g.n_tot - 1) 0 + g.dx_arr.getD (g.n_tot - 1) 0 / 2
          = (layers.map Layer.thickness).sum) := by
  have h1 : ∀ l ∈ layers, ¬ l.thickness < l.dx := fun l hl => not_lt.mpr (hth l hl)
  have hge1 : ∀ l ∈ layers, 1 ≤ nodesInLayer l :=
    fun l hl => one_le_nodesInLayer l (hdx l hl) (hth l hl)
  have hposN : ∀ l ∈ layers, 0 < (nodesInLayer l).toNat := by
    intro l hl
    have := hge1 l hl
    omega
  have hgrid : g = gridOf layers := setup_grid_ok_elim layers g h1 hok
  subst hgrid
  have hdxarr : (gridOf layers).dx_arr = dxArrOf layers := dxFill_eq_dxArrOf layers hposN
  have hlen : (gridOf layers).dx_arr.length = (gridOf layers).n_tot := by
    rw [hdxarr]
    exact dxArrOf_length layers
  have hx : ∀ i, i < (gridOf layers).n_tot →
      (gridOf layers).x_node.getD i 0
        = (gridOf layers).dx_arr.getD i 0 / 2 + ((gridOf layers).dx_arr.take i).sum := by
    intro i hi
    exact range_map_getD _ (totalNodes layers) i hi
  have hentry_pos : ∀ i, i < (gridOf layers).n_tot →
      0 < (gridOf layers).dx_arr.getD i 0 := by
    intro i hi
    have hi' : i < (gridOf layers).dx_arr.length := by rw [hlen]; exact hi
    rw [List.getD_eq_getElem _ _ hi']
    refine dxArrOf_pos layers hdx hth _ ?_
    rw [← hdxarr]
    exact List.getElem_mem hi'
  refine ⟨?_, hx, ?_, ?_⟩
  · intro k hk
    refine ⟨layerCounts_getD layers k hk, ?_, ?_⟩
    · show ((layerCounts layers).getD k 0 : ℚ) * (dxListOf layers).getD k 0 = _
      rw [layerCounts_getD layers k hk, dxListOf_getD layers k hk]
      have hne : ((nodesInLayer (layers.getD k default) : ℤ) : ℚ) ≠ 0 := by
        have := hge1 (layers.getD k default)
          (by rw [List.getD_eq_getElem _ _ hk]; exact List.getElem_mem hk)
        exact_mod_cast ne_of_gt (lt_of_lt_of_le Int.one_pos this)
      rw [mul_comm, div_mul_cancel₀ _ hne]
    · intro i hi1 hi2
      have hfirst : (gridOf layers).first_node_list = firstNodesFrom 0 layers := rfl
      have hnp : (gridOf layers).nodes_per_layer = layerCounts layers := rfl
      rw [hfirst] at hi1
      rw [hfirst, hnp, layerCounts_getD layers k hk] at hi2
      have ht : i - (firstNodesFrom 0 layers).getD k 0
          < (nodesInLayer (layers.getD k default)).toNat := by omega
      have hval := dxArrOf_in_layer layers 0 k hk (i - (firstNodesFrom 0 layers).getD k 0) ht
      rw [show (firstNodesFrom 0 layers).getD k 0 - 0
          + (i - (firstNodesFrom 0 layers).getD k 0) = i from by omega] at hval
      show (gridOf layers).dx_arr.getD i 0 = _
      rw [hdxarr, hnp, layerCounts_getD layers k hk, hval]
  · intro i hi
    rw [hx i (by omega), hx (i + 1) hi]
    have hsum : ((gridOf layers).dx_arr.take (i + 1)).sum
        = ((gridOf layers).dx_arr.take i).sum + (gridOf layers).dx_arr.getD i 0 := by
      have hi' : i < (gridOf layers).dx_arr.length := by
        rw [hlen]
        omega
      rw [List.sum_take_succ _ i hi', List.getD_eq_getElem _ _ hi']
    rw [hsum]
    have h2 := hentry_pos i (by omega)
    have h3 := hentry_pos (i + 1) hi
    linarith
  · intro hn
    rw [hx ((gridOf layers).n_tot - 1) (by omega)]
    have hi' : (gridOf layers).n_tot - 1 < (gridOf layers).dx_arr.length := by
      rw [hlen]
      omega
    have hsum : ((gridOf layers).dx_arr.take ((gridOf layers).n_tot - 1)).sum
          + (gridOf layers).dx_arr.getD ((gridOf layers).n_tot - 1) 0
        = (gridOf layers).dx_arr.sum := by
      rw [List.getD_eq_getElem _ _ hi', ← List.sum_take_succ _ _ hi']
      rw [show (gridOf layers).n_tot - 1 + 1 = (gridOf layers).dx_arr.length from by
        rw [hlen]; omega]
      rw [List.take_length]
    have htot : (gridOf layers).dx_arr.sum = (layers.map Layer.thickness).sum := by
      rw [hdxarr]
      exact dxArrOf_sum layers hge1
    linarith

/-- Witness for C3: a two-layer table, layer A of thickness 1 at spacing 1/2
(2 nodes), layer B of thickness 3 at spacing 1 (3 nodes). -/
theorem grid_spacing_and_positions_witness :
    ∃ g, setup_grid [⟨"A", 1/2, 1⟩, ⟨"B", 1, 3⟩] = .ok g
      ∧ (∀ i, i + 1 < g.n_tot → g.x_node.getD i 0 < g.x_node.getD (i + 1) 0)
      ∧ (0 < g.n_tot →
          g.x_node.getD (g.n_tot - 1) 0 + g.dx_arr.getD (g.n_tot - 1) 0 / 2
            = (([⟨"A", 1/2, 1⟩, ⟨"B", 1, 3⟩] : List Layer).map Layer.thickness).sum) := by
  refine ⟨gridOf [⟨"A", 1/2, 1⟩, ⟨"B", 1, 3⟩], by with_unfolding_all decide, ?_, ?_⟩
  · exact (grid_spacing_and_positions [⟨"A", 1/2, 1⟩, ⟨"B", 1, 3⟩] _
      (by with_unfolding_all decide) (by with_unfolding_all decide)
      (by with_unfolding_all decide)).2.2.1
  · exact (grid_spacing_and_positions [⟨"A", 1/2, 1⟩, ⟨"B", 1, 3⟩] _
      (by with_unfolding_all decide) (by with_unfolding_all decide)
      (by with_unfolding_all decide)).2.2.2

/-- **C4**: with positive requested spacings, `setup_grid` raises if and only
if some layer's thickness is less than its requested `dx`, or the domain has
more than one layer and some layer resolves to fewer than 2 nodes; and a
single-layer domain passing the thickness check — in particular one resolving
to a single node — is accepted. -/
theorem setup_grid_error_iff (layers : List Layer) (hdx : ∀ l ∈ layers, 0 < l.dx) :
    ((∃ e, setup_grid layers = .error e) ↔
      (∃ l ∈ layers, l.thickness < l.dx)
      ∨ (1 < layers.length ∧ ∃ l ∈ layers, nodesInLayer l ≤ 1))
    ∧ (layers.length = 1 → (∀ l ∈ layers, ¬ l.thickness < l.dx) →
        ∃ g, setup_grid layers = .ok g) := by
  constructor
  · constructor
    · intro ⟨e, he⟩
      by_cases hth : ∃ l ∈ layers, l.thickness < l.dx
      · exact Or.inl hth
      · push_neg at hth
        have h1 : ∀ l ∈ layers, ¬ l.thickness < l.dx := fun l hl => not_lt.mpr (hth l hl)
        by_cases h2 : 1 < layers.length ∧ ∃ n ∈ layerCounts layers, n ≤ 1
        · refine Or.inr ⟨h2.1, ?_⟩
          obtain ⟨n, hn, hn1⟩ := h2.2
          rw [layerCounts, List.mem_map] at hn
          obtain ⟨l, hl, rfl⟩ := hn
          exact ⟨l, hl, hn1⟩
        · rw [setup_grid_ok layers h1 h2] at he
          exact absurd he (by simp)
    · intro h
      rcases h with hth | ⟨hlen, l, hl, hn⟩
      · obtain ⟨e, he⟩ := gridFold_error layers ⟨0, [], [], [], [], []⟩ hth
        refine ⟨e, ?_⟩
        unfold setup_grid
        rw [he]
        rfl
      · by_cases hth : ∃ l ∈ layers, l.thickness < l.dx
        · obtain ⟨e, he⟩ := gridFold_error layers ⟨0, [], [], [], [], []⟩ hth
          refine ⟨e, ?_⟩
          unfold setup_grid
          rw [he]
          rfl
        · push_neg at hth
          have h1 : ∀ x ∈ layers, ¬ x.thickness < x.dx := fun x hx => not_lt.mpr (hth x hx)
          refine ⟨_, setup_grid_single_node_error layers h1
            ⟨hlen, nodesInLayer l, ?_, hn⟩⟩
          rw [layerCounts, List.mem_map]
          exact ⟨l, hl, rfl⟩
  · intro hlen h1
    refine ⟨gridOf layers, setup_grid_ok layers h1 ?_⟩
    intro ⟨h2, _⟩
    omega

/-- Witness for C4: a single layer of thickness equal to its spacing resolves
to one node and is accepted; the same layer next to a second layer raises. -/
theorem setup_grid_error_iff_witness :
    ((∃ e, setup_grid [⟨"A", 1, 1⟩, ⟨"B", 1, 3⟩] = .error e) ↔
      (∃ l ∈ [⟨"A", 1, 1⟩, ⟨"B", 1, 3⟩], Layer.thickness l < Layer.dx l)
      ∨ (1 < ([⟨"A", 1, 1⟩, ⟨"B", 1, 3⟩] : List Layer).length
          ∧ ∃ l ∈ [⟨"A", 1, 1⟩, ⟨"B", 1, 3⟩], nodesInLayer l ≤ 1))
    ∧ (∃ g, setup_grid [⟨"A", 1, 1⟩] = .ok g) :=
  ⟨(setup_grid_error_iff [⟨"A", 1, 1⟩, ⟨"B", 1, 3⟩]
      (by with_unfolding_all decide)).1,
   (setup_grid_error_iff [⟨"A", 1, 1⟩] (by with_unfolding_all decide)).2
      rfl (by with_unfolding_all decide)⟩

theorem roundHalfEven_add_half (m : ℕ) :
    roundHalfEven ((m : ℚ) + 1/2) = if m % 2 = 0 then (m : ℤ) else (m : ℤ) + 1 := by
  have hfloor : ⌊(m : ℚ) + 1/2⌋ = (m : ℤ) := by
    rw [show ((m : ℚ)) = (((m : ℤ)) : ℚ) from by push_cast; ring]
    rw [Int.floor_int_add]
    norm_num
  simp only [roundHalfEven, hfloor]
  rw [if_neg (by push_cast; norm_num), if_neg (by push_cast; norm_num)]
  by_cases hm : m % 2 = 0
  · rw [if_pos (by omega : (m : ℤ) % 2 = 0), if_pos hm]
  · rw [if_neg (by omega : ¬ (m : ℤ) % 2 = 0), if_neg hm]

/-- **C10**: when a layer's thickness-to-spacing ratio is exactly halfway
between two integers, the node count of `setup_grid` rounds the tie to the
nearest even integer (numpy round-half-to-even): a ratio of `m + 1/2` resolves
to `m` when `m` is even and to `m + 1` when `m` is odd; in particular a layer
with thickness/dx = 2.5 resolves to 2 nodes and one with thickness/dx = 3.5 to
4 nodes. -/
theorem grid_tie_rounds_to_even :
    (∀ (nm : String) (d T : ℚ) (m : ℕ), 0 < d → T / d = (m : ℚ) + 1/2 →
      nodesInLayer ⟨nm, d, T⟩ = if m % 2 = 0 then (m : ℤ) else (m : ℤ) + 1)
    ∧ (setup_grid [⟨"A", 1, 5/2⟩]).map Grid.nodes_per_layer = .ok [2]
    ∧ (setup_grid [⟨"A", 1, 7/2⟩]).map Grid.nodes_per_layer = .ok [4] := by
  refine ⟨?_, by with_unfolding_all decide, by with_unfolding_all decide⟩
  intro nm d T m hd hr
  show roundHalfEven (T / d) = _
  rw [hr]
  exact roundHalfEven_add_half m

/-- Witness for C10: ratio 5/2 resolves to 2 nodes, ratio 7/2 to 4 nodes. -/
theorem grid_tie_rounds_to_even_witness :
    nodesInLayer ⟨"A", 1, 5/2⟩ = 2 ∧ nodesInLayer ⟨"B", 1, 7/2⟩ = 4 := by
  constructor
  · have h := grid_tie_rounds_to_even.1 "A" 1 (5/2) 2
      (by with_unfolding_all decide) (by with_unfolding_all decide)
    simpa using h
  · have h := grid_tie_rounds_to_even.1 "B" 1 (7/2) 3
      (by with_unfolding_all decide) (by with_unfolding_all decide)
    simpa using h

/-! ## Theorems: reaction-system grouping (claim C2) -/

theorem findPatternIdx_some (pat : List ℕ) :
    ∀ (uniq : List (List ℕ)) (k : ℕ), findPatternIdx pat uniq = some k →
      k < uniq.length ∧ uniq.getD k [] = pat := by
  intro uniq
  induction uniq with
  | nil =>
    intro k h
    simp [findPatternIdx] at h
  | cons q qs ih =>
    intro k h
    rw [findPatternIdx] at h
    by_cases hq : q = pat
    · rw [if_pos hq] at h
      cases h
      exact ⟨by simp, hq⟩
    · rw [if_neg hq] at h
      cases hf : findPatternIdx pat qs with
      | none =>
        rw [hf] at h
        simp at h
      | some j =>
        rw [hf] at h
        simp only [Option.map_some'] at h
        cases h
        obtain ⟨h1, h2⟩ := ih j hf
        exact ⟨by simpa using h1, by simpa using h2⟩

theorem findPatternIdx_none (pat : List ℕ) :
    ∀ (uniq : List (List ℕ)), findPatternIdx pat uniq = none → pat ∉ uniq := by
  intro uniq
  induction uniq with
  | nil =>
    intro _ h
    simp at h
  | cons q qs ih =>
    intro h hmem
    rw [findPatternIdx] at h
    by_cases hq : q = pat
    · rw [if_pos hq] at h
      exact absurd h (by simp)
    · rw [if_neg hq] at h
      rcases List.mem_cons.mp hmem with rfl | hmem'
      · exact hq rfl
      · cases hf : findPatternIdx pat qs with
        | none => exact ih hf hmem'
        | some j =>
          rw [hf] at h
          simp at h

theorem uniqueSystemsGo_uniq_append (rows : List (List ℕ)) :
    ∀ (cs cmap : List ℕ) (uniq : List (List ℕ)),
      ∃ rest, (uniqueSystemsGo rows cs (cmap, uniq)).2 = uniq ++ rest := by
  intro cs
  induction cs with
  | nil =>
    intro cmap uniq
    exact ⟨[], by simp [uniqueSystemsGo]⟩
  | cons c cs ih =>
    intro cmap uniq
    rw [uniqueSystemsGo]
    split
    · exact ih _ _
    · obtain ⟨rest, hr⟩ := ih (cmap ++ [uniq.length]) (uniq ++ [colPattern rows c])
      exact ⟨colPattern rows c :: rest, by rw [hr, List.append_assoc, List.singleton_append]⟩

theorem uniqueSystemsGo_cmap_append (rows : List (List ℕ)) :
    ∀ (cs cmap : List ℕ) (uniq : List (List ℕ)),
      ∃ rest, (uniqueSystemsGo rows cs (cmap, uniq)).1 = cmap ++ rest
        ∧ rest.length = cs.length := by
  intro cs
  induction cs with
  | nil =>
    intro cmap uniq
    exact ⟨[], by simp [uniqueSystemsGo]⟩
  | cons c cs ih =>
    intro cmap uniq
    rw [uniqueSystemsGo]
    split
    · rename_i k _
      obtain ⟨rest, hr, hl⟩ := ih (cmap ++ [k]) uniq
      exact ⟨k :: rest, by rw [hr, List.append_assoc, List.singleton_append],
        by simp [hl]⟩
    · obtain ⟨rest, hr, hl⟩ := ih (cmap ++ [uniq.length]) (uniq ++ [colPattern rows c])
      exact ⟨uniq.length :: rest, by rw [hr, List.append_assoc, List.singleton_append],
        by simp [hl]⟩

theorem uniqueSystemsGo_assign (rows : List (List ℕ)) :
    ∀ (cs cmap : List ℕ) (uniq : List (List ℕ)) (idx : ℕ), idx < cs.length →
      (uniqueSystemsGo rows cs (cmap, uniq)).1.getD (cmap.length + idx) 0
          < (uniqueSystemsGo rows cs (cmap, uniq)).2.length
      ∧ (uniqueSystemsGo rows cs (cmap, uniq)).2.getD
          ((uniqueSystemsGo rows cs (cmap, uniq)).1.getD (cmap.length + idx) 0) []
        = colPattern rows (cs.getD idx 0) := by
  intro cs
  induction cs with
  | nil =>
    intro cmap uniq idx h
    simp at h
  | cons c cs ih =>
    intro cmap uniq idx hidx
    rw [uniqueSystemsGo]
    split
    · rename_i k heq
      obtain ⟨hk, hkval⟩ := findPatternIdx_some (colPattern rows c) uniq k heq
      cases idx with
      | zero =>
        obtain ⟨rest1, hr1, _⟩ := uniqueSystemsGo_cmap_append rows cs (cmap ++ [k]) uniq
        obtain ⟨rest2, hr2⟩ := uniqueSystemsGo_uniq_append rows cs (cmap ++ [k]) uniq
        have hget : (uniqueSystemsGo rows cs (cmap ++ [k], uniq)).1.getD
            (cmap.length + 0) 0 = k := by
          rw [hr1, List.append_assoc, List.singleton_append, Nat.add_zero,
            List.getD_append_right _ _ _ _ (le_refl _), Nat.sub_self]
          rfl
        refine ⟨?_, ?_⟩
        · rw [hget, hr2, List.length_append]
          omega
        · rw [hget, hr2, List.getD_append _ _ _ _ hk]
          simpa using hkval
      | succ j =>
        have h := ih (cmap ++ [k]) uniq j (by simpa using hidx)
        rw [List.length_append] at h
        simp only [List.length_singleton] at h
        rw [show cmap.length + (j + 1) = cmap.length + 1 + j from by omega,
          List.getD_cons_succ]
        exact h
    · rename_i heq
      cases idx with
      | zero =>
        obtain ⟨rest1, hr1, _⟩ :=
          uniqueSystemsGo_cmap_append rows cs (cmap ++ [uniq.length])
            (uniq ++ [colPattern rows c])
        obtain ⟨rest2, hr2⟩ :=
          uniqueSystemsGo_uniq_append rows cs (cmap ++ [uniq.length])
            (uniq ++ [colPattern rows c])
        have hget : (uniqueSystemsGo rows cs
            (cmap ++ [uniq.length], uniq ++ [colPattern rows c])).1.getD
            (cmap.length + 0) 0 = uniq.length := by
          rw [hr1, List.append_assoc, List.singleton_append, Nat.add_zero,
            List.getD_append_right _ _ _ _ (le_refl _), Nat.sub_self]
          rfl
        refine ⟨?_, ?_⟩
        · rw [hget, hr2, List.length_append, List.length_append]
          simp only [List.length_singleton]
          omega
        · rw [hget, hr2, List.getD_append _ _ _ _ (by simp),
            List.getD_append_right _ _ _ _ (le_refl _), Nat.sub_self]
          rfl
      | succ j =>
        have h := ih (cmap ++ [uniq.length]) (uniq ++ [colPattern rows c]) j
          (by simpa using hidx)
        rw [List.length_append] at h
        simp only [List.length_singleton] at h
        rw [show cmap.length + (j + 1) = cmap.length + 1 + j from by omega,
          List.getD_cons_succ]
        exact h

theorem uniqueSystemsGo_mem (rows : List (List ℕ)) :
    ∀ (cs cmap : List ℕ) (uniq : List (List ℕ)) (p : List ℕ),
      p ∈ (uniqueSystemsGo rows cs (cmap, uniq)).2
        ↔ p ∈ uniq ∨ ∃ c ∈ cs, p = colPattern rows c := by
  intro cs
  induction cs with
  | nil =>
    intro cmap uniq p
    simp [uniqueSystemsGo]
  | cons c cs ih =>
    intro cmap uniq p
    rw [uniqueSystemsGo]
    split
    · rename_i k heq
      obtain ⟨hk, hkval⟩ := findPatternIdx_some (colPattern rows c) uniq k heq
      have hpat : colPattern rows c ∈ uniq := by
        rw [← hkval]
        rw [List.getD_eq_getElem _ _ hk]
        exact List.getElem_mem hk
      rw [ih]
      constructor
      · rintro (h | ⟨c', hc', rfl⟩)
        · exact Or.inl h
        · exact Or.inr ⟨c', List.mem_cons_of_mem c hc', rfl⟩
      · rintro (h | ⟨c', hc', rfl⟩)
        · exact Or.inl h
        · rcases List.mem_cons.mp hc' with rfl | hc''
          · exact Or.inl hpat
          · exact Or.inr ⟨c', hc'', rfl⟩
    · rw [ih]
      constructor
      · rintro (h | ⟨c', hc', rfl⟩)
        · rcases List.mem_append.mp h with h' | h'
          · exact Or.inl h'
          · exact Or.inr ⟨c, List.mem_cons_self c cs, by simpa using h'⟩
        · exact Or.inr ⟨c', List.mem_cons_of_mem c hc', rfl⟩
      · rintro (h | ⟨c', hc', rfl⟩)
        · exact Or.inl (List.mem_append.mpr (Or.inl h))
        · rcases List.mem_cons.mp hc' with rfl | hc''
          · exact Or.inl (List.mem_append.mpr (Or.inr (by simp)))
          · exact Or.inr ⟨c', hc'', rfl⟩

theorem uniqueSystemsGo_nodup (rows : List (List ℕ)) :
    ∀ (cs cmap : List ℕ) (uniq : List (List ℕ)), uniq.Nodup →
      (uniqueSystemsGo rows cs (cmap, uniq)).2.Nodup := by
  intro cs
  induction cs with
  | nil =>
    intro cmap uniq h
    simpa [uniqueSystemsGo] using h
  | cons c cs ih =>
    intro cmap uniq h
    rw [uniqueSystemsGo]
    split
    · exact ih _ _ h
    · rename_i heq
      refine ih _ _ ?_
      rw [List.nodup_append]
      exact ⟨h, List.nodup_singleton _, by
        intro p hp hq
        rw [List.mem_singleton] at hq
        exact findPatternIdx_none (colPattern rows c) uniq heq (hq ▸ hp)⟩

theorem map_getD_lt {α β : Type} (f : α → β) (l : List α) (v : ℕ) (d : α) (db : β)
    (hv : v < l.length) : (l.map f).getD v db = f (l.getD v d) := by
  rw [List.getD_eq_getElem _ _ (by simpa using hv), List.getElem_map,
    List.getD_eq_getElem _ _ hv]

/-- The number of grouped systems equals the number of distinct cell
activation-pattern columns. -/
theorem uniqueSystems_length (rows : List (List ℕ)) (n_cells : ℕ) :
    (uniqueSystems rows n_cells).2.length
      = ((List.range n_cells).map (colPattern rows)).dedup.length := by
  have hnodup : (uniqueSystems rows n_cells).2.Nodup :=
    uniqueSystemsGo_nodup rows (List.range n_cells) [] [] List.nodup_nil
  have hmem : ∀ p, p ∈ (uniqueSystems rows n_cells).2
      ↔ p ∈ (List.range n_cells).map (colPattern rows) := by
    intro p
    rw [uniqueSystems, uniqueSystemsGo_mem]
    simp only [List.not_mem_nil, false_or, List.mem_map]
    constructor
    · rintro ⟨c, hc, rfl⟩
      exact ⟨c, hc, rfl⟩
    · rintro ⟨c, hc, rfl⟩
      exact ⟨c, hc, rfl⟩
  have h1 : (uniqueSystems rows n_cells).2.toFinset
      = ((List.range n_cells).map (colPattern rows)).dedup.toFinset := by
    ext p
    simp only [List.mem_toFinset, List.mem_dedup]
    exact hmem p
  calc (uniqueSystems rows n_cells).2.length
      = (uniqueSystems rows n_cells).2.toFinset.card :=
        (List.toFinset_card_of_nodup hnodup).symm
    _ = ((List.range n_cells).map (colPattern rows)).dedup.toFinset.card := by rw [h1]
    _ = ((List.range n_cells).map (colPattern rows)).dedup.length :=
        List.toFinset_card_of_nodup (List.nodup_dedup _)

/-- **C2**: reaction grouping is minimal and correct.  On a successful
`load_reactions`, the models and fractional-conversion columns are taken in
sorted reaction-key order; the number of built reaction systems equals the
number of distinct cell activation-pattern columns of the activation mask;
and every node carrying a valid cell key is assigned a system whose models
and fractional-conversion columns are exactly those of the reactions flagged
active on that node's cell. -/
theorem reaction_grouping_minimal (n_cells : ℕ) (cell_node_key : List ℕ)
    (rho_cp : ℚ) (dsc : ℕ × ℚ) (rxns : List (ℕ × RxnInfo)) (out : LoadedReactions)
    (hok : load_reactions n_cells cell_node_key rho_cp dsc rxns = .ok out) :
    out.model_list = (sortedRxns rxns).map (fun p => p.2.model)
    ∧ out.frac_cols = (sortedRxns rxns).map (fun p => p.2.frac_col)
    ∧ List.Sorted (fun a b => a.1 ≤ b.1) (sortedRxns rxns)
    ∧ out.reaction_systems.length
        = ((List.range n_cells).map (colPattern out.active_cells)).dedup.length
    ∧ (∀ i c, cell_node_key.getD i 0 = c → 1 ≤ c → c ≤ n_cells →
        0 ≤ out.node_to_system_map.getD i 0
        ∧ (out.reaction_systems.getD (out.node_to_system_map.getD i 0).toNat
            default).models
          = selectByPattern (colPattern out.active_cells (c - 1)) out.model_list
        ∧ (out.reaction_systems.getD (out.node_to_system_map.getD i 0).toNat
            default).frac_cols
          = selectByPattern (colPattern out.active_cells (c - 1)) out.frac_cols) := by
  have hsorted : List.Sorted (fun a b : ℕ × RxnInfo => a.1 ≤ b.1) (sortedRxns rxns) := by
    haveI : IsTotal (ℕ × RxnInfo) (fun a b => a.1 ≤ b.1) :=
      ⟨fun a b => Nat.le_total a.1 b.1⟩
    haveI : IsTrans (ℕ × RxnInfo) (fun a b => a.1 ≤ b.1) :=
      ⟨fun _ _ _ => Nat.le_trans⟩
    exact List.sorted_insertionSort _ rxns
  unfold load_reactions at hok
  simp only [] at hok
  cases hb : buildActiveCells n_cells (sortedRxns rxns) with
  | error e =>
    rw [hb] at hok
    exact absurd hok (by simp [Bind.bind, Except.bind])
  | ok rows =>
    rw [hb] at hok
    simp only [Bind.bind, Except.bind, Except.ok.injEq] at hok
    subst hok
    dsimp only
    refine ⟨rfl, rfl, hsorted, ?_, ?_⟩
    · rw [List.length_map]
      exact uniqueSystems_length rows n_cells
    · intro i c hc h1 h2
      have hi : i < cell_node_key.length := by
        by_contra h
        push_neg at h
        rw [List.getD_eq_default _ _ h] at hc
        omega
      have hmap : (map_all_systems rows cell_node_key n_cells).1.getD i 0
          = ((uniqueSystems rows n_cells).1.getD (c - 1) 0 : ℤ) := by
        show ((cell_node_key.map _).getD i 0) = _
        rw [List.getD_eq_getElem _ _ (by simpa using hi), List.getElem_map]
        rw [List.getD_eq_getElem _ _ hi] at hc
        rw [hc, if_pos h1]
      have hass := uniqueSystemsGo_assign rows (List.range n_cells) [] [] (c - 1)
        (by simpa using (show c - 1 < n_cells from by omega))
      rw [List.length_nil, Nat.zero_add] at hass
      have hrange : (List.range n_cells).getD (c - 1) 0 = c - 1 := by
        rw [List.getD_eq_getElem _ _
          (by simpa using (show c - 1 < n_cells from by omega))]
        simp
      rw [hrange] at hass
      obtain ⟨hlt, hval⟩ := hass
      have hv : (uniqueSystems rows n_cells).1.getD (c - 1) 0
          < (uniqueSystems rows n_cells).2.length := hlt
      have hval' : (uniqueSystems rows n_cells).2.getD
          ((uniqueSystems rows n_cells).1.getD (c - 1) 0) []
          = colPattern rows (c - 1) := hval
      have hms2 : (map_all_systems rows cell_node_key n_cells).2
          = (uniqueSystems rows n_cells).2 := rfl
      refine ⟨by rw [hmap]; exact Int.natCast_nonneg _, ?_, ?_⟩
      · rw [hmap, Int.toNat_natCast, hms2,
          map_getD_lt _ _ _ [] _ hv, hval']
      · rw [hmap, Int.toNat_natCast, hms2,
          map_getD_lt _ _ _ [] _ hv, hval']

/-- Witness for C2: two reactions (keys 2 and 1, given out of order), the
key-1 reaction active everywhere and the key-2 reaction active only on cell 1,
over a three-node domain spanning two cells: two distinct activation patterns,
and node 2 (cell 2) is assigned the system with only the key-1 reaction. -/
theorem reaction_grouping_minimal_witness :
    ((load_reactions 2 [1, 1, 2] 1 (0, 0)
        [(2, ⟨5, [1], some [1]⟩), (1, ⟨7, [2], none⟩)]).toOption.getD
        default).reaction_systems.length
      = ((List.range 2).map (colPattern ((load_reactions 2 [1, 1, 2] 1 (0, 0)
          [(2, ⟨5, [1], some [1]⟩), (1, ⟨7, [2], none⟩)]).toOption.getD
          default).active_cells)).dedup.length
    ∧ 0 ≤ ((load_reactions 2 [1, 1, 2] 1 (0, 0)
        [(2, ⟨5, [1], some [1]⟩), (1, ⟨7, [2], none⟩)]).toOption.getD
        default).node_to_system_map.getD 2 0
    ∧ (((load_reactions 2 [1, 1, 2] 1 (0, 0)
        [(2, ⟨5, [1], some [1]⟩), (1, ⟨7, [2], none⟩)]).toOption.getD
        default).reaction_systems.getD
          (((load_reactions 2 [1, 1, 2] 1 (0, 0)
            [(2, ⟨5, [1], some [1]⟩), (1, ⟨7, [2], none⟩)]).toOption.getD
            default).node_to_system_map.getD 2 0).toNat default).models
      = selectByPattern
          (colPattern ((load_reactions 2 [1, 1, 2] 1 (0, 0)
            [(2, ⟨5, [1], some [1]⟩), (1, ⟨7, [2], none⟩)]).toOption.getD
            default).active_cells 1)
          ((load_reactions 2 [1, 1, 2] 1 (0, 0)
            [(2, ⟨5, [1], some [1]⟩), (1, ⟨7, [2], none⟩)]).toOption.getD
            default).model_list := by
  have h := reaction_grouping_minimal 2 [1, 1, 2] 1 (0, 0)
    [(2, ⟨5, [1], some [1]⟩), (1, ⟨7, [2], none⟩)]
    ((load_reactions 2 [1, 1, 2] 1 (0, 0)
      [(2, ⟨5, [1], some [1]⟩), (1, ⟨7, [2], none⟩)]).toOption.getD default)
    (by with_unfolding_all rfl)
  exact ⟨h.2.2.2.1, (h.2.2.2.2 2 2 rfl (by decide) (by decide)).1,
    (h.2.2.2.2 2 2 rfl (by decide) (by decide)).2.1⟩

/-! ## Theorems: the per-node integrator and node lifecycle (claims C1, C6, C9) -/

theorem getD_set_ne' {α : Type} (l : List α) (i j : ℕ) (v d : α) (h : i ≠ j) :
    (l.set i v).getD j d = l.getD j d := by
  simp [List.getD_eq_getElem?_getD, List.getElem?_set_ne h]

theorem getD_set_self' {α : Type} (l : List α) (i : ℕ) (v d : α) (h : i < l.length) :
    (l.set i v).getD i d = v := by
  simp [List.getD_eq_getElem?_getD, List.getElem?_set_self h]

theorem getD_set_zero (l : List ℚ) (i : ℕ) : (l.set i 0).getD i 0 = 0 := by
  by_cases h : i < l.length
  · exact getD_set_self' l i 0 0 h
  · rw [List.getD_eq_default _ _ (by rw [List.length_set]; omega)]

theorem getD_nodup_ne (l : List ℕ) (hN : l.Nodup) (a b : ℕ)
    (ha : a < l.length) (hb : b < l.length) (hab : a ≠ b) :
    l.getD a 0 ≠ l.getD b 0 := by
  rw [List.getD_eq_getElem _ _ ha, List.getD_eq_getElem _ _ hb]
  intro h
  exact hab ((hN.getElem_inj_iff).mp h)

/-- `setColumn` writes only column `i`. -/
theorem setColumn_getD_ne (n i : ℕ) (vals : List ℚ) (i' : ℕ) (h : i' ≠ i) :
    ∀ (mat : List (List ℚ)) (j : ℕ),
      ((setColumn n i vals mat).getD j []).getD i' 0 = (mat.getD j []).getD i' 0 := by
  suffices H : ∀ (js : List ℕ) (mat : List (List ℚ)) (j : ℕ),
      ((js.foldl (fun m j0 => m.set j0 ((m.getD j0 []).set i (vals.getD j0 0))) mat).getD
        j []).getD i' 0 = (mat.getD j []).getD i' 0 by
    intro mat j
    exact H (List.range n) mat j
  intro js
  induction js with
  | nil =>
    intro mat j
    rfl
  | cons j0 js ih =>
    intro mat j
    rw [List.foldl_cons, ih]
    by_cases hj : j = j0
    · subst hj
      by_cases hr : j < mat.length
      · rw [getD_set_self' mat j _ [] hr]
        exact getD_set_ne' _ _ _ _ _ (Ne.symm h)
      · rw [List.set_eq_of_length_le (by omega)]
    · rw [getD_set_ne' _ _ _ _ _ (fun he => hj he.symm)]

/-- Everything `clearOne` writes sits in the cleared node's column; the node
bookkeeping is untouched. -/
theorem clearOne_frame (st : RxnState) (act : ℕ) (i' : ℕ)
    (h : i' ≠ st.active_nodes.getD act 0) :
    (∀ j, ((clearOne st act).species_density.getD j []).getD i' 0
        = (st.species_density.getD j []).getD i' 0)
    ∧ (∀ j, ((clearOne st act).species_rate.getD j []).getD i' 0
        = (st.species_rate.getD j []).getD i' 0)
    ∧ (clearOne st act).temperature_rate.getD i' 0 = st.temperature_rate.getD i' 0
    ∧ (clearOne st act).heat_release_rate.getD i' 0 = st.heat_release_rate.getD i' 0
    ∧ (clearOne st act).active_nodes = st.active_nodes
    ∧ (clearOne st act).inactive_node_list = st.inactive_node_list := by
  refine ⟨?_, ?_, ?_, ?_, rfl, rfl⟩
  · intro j
    by_cases hj : j < st.species_density.length
    · show ((st.species_density.map _).getD j []).getD i' 0 = _
      rw [map_getD_lt _ _ _ [] _ hj]
      show (if (st.species_density.getD j []).getD (st.active_nodes.getD act 0) 0
          < small_number then (st.species_density.getD j []).set
            (st.active_nodes.getD act 0) 0
          else st.species_density.getD j []).getD i' 0 = _
      split
      · exact getD_set_ne' _ _ _ _ _ (Ne.symm h)
      · rfl
    · have h1 : (clearOne st act).species_density.getD j [] = [] := by
        show (st.species_density.map _).getD j [] = []
        apply List.getD_eq_default
        rw [List.length_map]
        omega
      have h2 : st.species_density.getD j [] = [] :=
        List.getD_eq_default _ _ (by omega)
      rw [h1, h2]
  · intro j
    by_cases hj : j < st.species_rate.length
    · show ((st.species_rate.map _).getD j []).getD i' 0 = _
      rw [map_getD_lt _ _ _ [] _ hj]
      exact getD_set_ne' _ _ _ _ _ (Ne.symm h)
    · have h1 : (clearOne st act).species_rate.getD j [] = [] := by
        show (st.species_rate.map _).getD j [] = []
        apply List.getD_eq_default
        rw [List.length_map]
        omega
      have h2 : st.species_rate.getD j [] = [] :=
        List.getD_eq_default _ _ (by omega)
      rw [h1, h2]
  · exact getD_set_ne' _ _ _ _ _ (Ne.symm h)
  · exact getD_set_ne' _ _ _ _ _ (Ne.symm h)

/-- What `clearOne` leaves in the cleared node's column: densities snapped
below the threshold, all rates exactly zero. -/
theorem clearOne_at (st : RxnState) (act : ℕ) :
    (∀ j, ((clearOne st act).species_density.getD j []).getD
        (st.active_nodes.getD act 0) 0
      = if (st.species_density.getD j []).getD (st.active_nodes.getD act 0) 0
            < small_number then 0
        else (st.species_density.getD j []).getD (st.active_nodes.getD act 0) 0)
    ∧ (∀ j, ((clearOne st act).species_rate.getD j []).getD
        (st.active_nodes.getD act 0) 0 = 0)
    ∧ (clearOne st act).temperature_rate.getD (st.active_nodes.getD act 0) 0 = 0
    ∧ (clearOne st act).heat_release_rate.getD (st.active_nodes.getD act 0) 0 = 0 := by
  refine ⟨?_, ?_, getD_set_zero _ _, getD_set_zero _ _⟩
  · intro j
    by_cases hj : j < st.species_density.length
    · show ((st.species_density.map _).getD j []).getD _ 0 = _
      rw [map_getD_lt _ _ _ [] _ hj]
      show (if (st.species_density.getD j []).getD (st.active_nodes.getD act 0) 0
          < small_number then (st.species_density.getD j []).set
            (st.active_nodes.getD act 0) 0
          else st.species_density.getD j []).getD (st.active_nodes.getD act 0) 0 = _
      by_cases hs : (st.species_density.getD j []).getD (st.active_nodes.getD act 0) 0
          < small_number
      · rw [if_pos hs, if_pos hs]
        exact getD_set_zero _ _
      · rw [if_neg hs, if_neg hs]
    · have h1 : (clearOne st act).species_density.getD j [] = [] := by
        show (st.species_density.map _).getD j [] = []
        apply List.getD_eq_default
        rw [List.length_map]
        omega
      have h2 : st.species_density.getD j [] = [] :=
        List.getD_eq_default _ _ (by omega)
      rw [h1, h2]
      rw [if_pos (by norm_num [small_number])]
      rfl
  · intro j
    by_cases hj : j < st.species_rate.length
    · show ((st.species_rate.map _).getD j []).getD _ 0 = _
      rw [map_getD_lt _ _ _ [] _ hj]
      exact getD_set_zero _ _
    · have h1 : (clearOne st act).species_rate.getD j [] = [] := by
        show (st.species_rate.map _).getD j [] = []
        apply List.getD_eq_default
        rw [List.length_map]
        omega
      rw [h1]
      rfl

/-- The clearing loop never touches the node bookkeeping, and touches only
the columns of the listed nodes. -/
theorem clearFold_frame :
    ∀ (acts : List ℕ) (st : RxnState) (i' : ℕ),
      (∀ a ∈ acts, st.active_nodes.getD a 0 ≠ i') →
      (∀ j, ((acts.foldl clearOne st).species_density.getD j []).getD i' 0
          = (st.species_density.getD j []).getD i' 0)
      ∧ (∀ j, ((acts.foldl clearOne st).species_rate.getD j []).getD i' 0
          = (st.species_rate.getD j []).getD i' 0)
      ∧ (acts.foldl clearOne st).temperature_rate.getD i' 0
          = st.temperature_rate.getD i' 0
      ∧ (acts.foldl clearOne st).heat_release_rate.getD i' 0
          = st.heat_release_rate.getD i' 0 := by
  intro acts
  induction acts with
  | nil =>
    intro st i' _
    exact ⟨fun _ => rfl, fun _ => rfl, rfl, rfl⟩
  | cons a acts ih =>
    intro st i' hne
    rw [List.foldl_cons]
    have h1 := clearOne_frame st a i'
      (fun he => hne a (List.mem_cons_self a acts) he.symm)
    have hact : (clearOne st a).active_nodes = st.active_nodes := h1.2.2.2.2.1
    have h2 := ih (clearOne st a) i' (by
      rw [hact]
      exact fun x hx => hne x (List.mem_cons_of_mem _ hx))
    exact ⟨fun j => (h2.1 j).trans (h1.1 j), fun j => (h2.2.1 j).trans (h1.2.1 j),
      h2.2.2.1.trans h1.2.2.1, h2.2.2.2.trans h1.2.2.2.1⟩

theorem clearFold_nodes :
    ∀ (acts : List ℕ) (st : RxnState),
      (acts.foldl clearOne st).active_nodes = st.active_nodes
      ∧ (acts.foldl clearOne st).inactive_node_list = st.inactive_node_list := by
  intro acts
  induction acts with
  | nil => intro st; exact ⟨rfl, rfl⟩
  | cons a acts ih =>
    intro st
    rw [List.foldl_cons]
    exact ⟨(ih (clearOne st a)).1, (ih (clearOne st a)).2⟩

/-- What the full clearing loop leaves in a listed node's column `i`:
densities snapped below the threshold, all rates exactly zero. -/
theorem clearFold_at :
    ∀ (acts : List ℕ) (st : RxnState) (act i : ℕ),
      act ∈ acts → acts.Nodup →
      (∀ a ∈ acts, a < st.active_nodes.length) → st.active_nodes.Nodup →
      st.active_nodes.getD act 0 = i →
      (∀ j, ((acts.foldl clearOne st).species_density.getD j []).getD i 0
        = if (st.species_density.getD j []).getD i 0 < small_number then 0
          else (st.species_density.getD j []).getD i 0)
      ∧ (∀ j, ((acts.foldl clearOne st).species_rate.getD j []).getD i 0 = 0)
      ∧ (acts.foldl clearOne st).temperature_rate.getD i 0 = 0
      ∧ (acts.foldl clearOne st).heat_release_rate.getD i 0 = 0 := by
  intro acts
  induction acts with
  | nil =>
    intro st act i h
    simp at h
  | cons a acts ih =>
    intro st act i hmem hnd hbound hactN hi
    rw [List.foldl_cons]
    rcases List.mem_cons.mp hmem with rfl | hmem'
    · have hnotin : act ∉ acts := (List.nodup_cons.mp hnd).1
      have haL : act < st.active_nodes.length :=
        hbound act (List.mem_cons_self act acts)
      have hne : ∀ x ∈ acts, (clearOne st act).active_nodes.getD x 0 ≠ i := by
        intro x hx
        show st.active_nodes.getD x 0 ≠ i
        rw [← hi]
        exact getD_nodup_ne st.active_nodes hactN x act
          (hbound x (List.mem_cons_of_mem _ hx)) haL (fun he => hnotin (he ▸ hx))
      have hframe := clearFold_frame acts (clearOne st act) i hne
      have hat := clearOne_at st act
      rw [hi] at hat
      refine ⟨?_, ?_, ?_, ?_⟩
      · intro j
        rw [hframe.1 j, hat.1 j]
      · intro j
        rw [hframe.2.1 j, hat.2.1 j]
      · rw [hframe.2.2.1, hat.2.2.1]
      · rw [hframe.2.2.2, hat.2.2.2]
    · have hnotin : a ∉ acts := (List.nodup_cons.mp hnd).1
      have hna : act ≠ a := fun he => hnotin (he ▸ hmem')
      have hne_col : i ≠ st.active_nodes.getD a 0 := by
        rw [← hi]
        exact getD_nodup_ne st.active_nodes hactN act a
          (hbound act hmem) (hbound a (List.mem_cons_self a acts)) hna
      have h1 := clearOne_frame st a i hne_col
      have h2 := ih (clearOne st a) act i hmem' (List.nodup_cons.mp hnd).2
        (fun x hx => hbound x (List.mem_cons_of_mem _ hx)) hactN hi
      refine ⟨?_, ?_, ?_, ?_⟩
      · intro j
        rw [h2.1 j, h1.1 j]
      · intro j
        exact h2.2.1 j
      · exact h2.2.2.1
      · exact h2.2.2.2

theorem deleteAt_subset {α : Type} (l : List α) (ps : List ℕ) :
    ∀ x ∈ deleteAt l ps, x ∈ l := by
  intro x hx
  rw [deleteAt] at hx
  obtain ⟨⟨idx, y⟩, hmem, rfl⟩ := List.mem_map.mp hx
  have hy : y ∈ l.enum.map Prod.snd :=
    List.mem_map_of_mem _ (List.mem_filter.mp hmem).1
  rwa [List.enum_map_snd] at hy

/-- `np.delete` really removes a listed position: with distinct entries, the
element at a deleted position is gone. -/
theorem deleteAt_not_mem (l : List ℕ) (ps : List ℕ) (act : ℕ)
    (hact : act < l.length) (hmem : act ∈ ps) (hN : l.Nodup) :
    l.getD act 0 ∉ deleteAt l ps := by
  intro hx
  rw [deleteAt] at hx
  obtain ⟨⟨idx, y⟩, hmemf, hy⟩ := List.mem_map.mp hx
  obtain ⟨henum, hfil⟩ := List.mem_filter.mp hmemf
  obtain ⟨k, hk, hke⟩ := List.mem_iff_getElem.mp henum
  rw [List.getElem_enum] at hke
  have hkl : k < l.length := by
    have := l.enum_length
    omega
  obtain ⟨hidx, hyv⟩ : idx = k ∧ y = l[k] := by
    have h1 := congrArg Prod.fst hke
    have h2 := congrArg Prod.snd hke
    exact ⟨h1.symm, h2.symm⟩
  subst hidx
  subst hyv
  rw [List.getD_eq_getElem _ _ hact] at hy
  have : idx = act := (hN.getElem_inj_iff).mp hy
  subst this
  simp at hfil
  exact hfil hmem

/-- `clear_nodes` on a node recorded in the pending-clear list: densities
snapped, rates zeroed, and the node is removed from the active array, which
otherwise only keeps previously active nodes; the pending list is emptied. -/
theorem clear_nodes_spec (st : RxnState) (act i : ℕ)
    (hmem : act ∈ st.inactive_node_list) (hndI : st.inactive_node_list.Nodup)
    (hbound : ∀ a ∈ st.inactive_node_list, a < st.active_nodes.length)
    (hndA : st.active_nodes.Nodup) (hi : st.active_nodes.getD act 0 = i) :
    (∀ j, ((clear_nodes st).species_density.getD j []).getD i 0
      = if (st.species_density.getD j []).getD i 0 < small_number then 0
        else (st.species_density.getD j []).getD i 0)
    ∧ (∀ j, ((clear_nodes st).species_rate.getD j []).getD i 0 = 0)
    ∧ (clear_nodes st).temperature_rate.getD i 0 = 0
    ∧ (clear_nodes st).heat_release_rate.getD i 0 = 0
    ∧ i ∉ (clear_nodes st).active_nodes
    ∧ (∀ x ∈ (clear_nodes st).active_nodes, x ∈ st.active_nodes)
    ∧ (clear_nodes st).inactive_node_list = [] := by
  have hfold := clearFold_at st.inactive_node_list st act i hmem hndI hbound hndA hi
  have hnodes := clearFold_nodes st.inactive_node_list st
  refine ⟨hfold.1, hfold.2.1, hfold.2.2.1, hfold.2.2.2, ?_, ?_, rfl⟩
  · show i ∉ deleteAt (st.inactive_node_list.foldl clearOne st).active_nodes
      (st.inactive_node_list.foldl clearOne st).inactive_node_list
    rw [hnodes.1, hnodes.2, ← hi]
    exact deleteAt_not_mem st.active_nodes st.inactive_node_list act
      (hbound act hmem) hmem hndA
  · intro x hx
    show x ∈ st.active_nodes
    have hx' : x ∈ deleteAt (st.inactive_node_list.foldl clearOne st).active_nodes
        (st.inactive_node_list.foldl clearOne st).inactive_node_list := hx
    rw [hnodes.1, hnodes.2] at hx'
    exact deleteAt_subset _ _ x hx'

/-- `clear_nodes` does not touch nodes outside the active array. -/
theorem clear_nodes_frame (st : RxnState) (i' : ℕ)
    (hbound : ∀ a ∈ st.inactive_node_list, a < st.active_nodes.length)
    (hi' : i' ∉ st.active_nodes) :
    (∀ j, ((clear_nodes st).species_density.getD j []).getD i' 0
        = (st.species_density.getD j []).getD i' 0)
    ∧ (∀ j, ((clear_nodes st).species_rate.getD j []).getD i' 0
        = (st.species_rate.getD j []).getD i' 0)
    ∧ (clear_nodes st).temperature_rate.getD i' 0 = st.temperature_rate.getD i' 0
    ∧ (clear_nodes st).heat_release_rate.getD i' 0 = st.heat_release_rate.getD i' 0
    ∧ i' ∉ (clear_nodes st).active_nodes := by
  have hne : ∀ a ∈ st.inactive_node_list, st.active_nodes.getD a 0 ≠ i' := by
    intro a ha he
    apply hi'
    rw [← he, List.getD_eq_getElem _ _ (hbound a ha)]
    exact List.getElem_mem _
  have hfr := clearFold_frame st.inactive_node_list st i' hne
  have hnodes := clearFold_nodes st.inactive_node_list st
  refine ⟨hfr.1, hfr.2.1, hfr.2.2.1, hfr.2.2.2, ?_⟩
  intro hx
  apply hi'
  have hx' : i' ∈ deleteAt (st.inactive_node_list.foldl clearOne st).active_nodes
      (st.inactive_node_list.foldl clearOne st).inactive_node_list := hx
  rw [hnodes.1, hnodes.2] at hx'
  exact deleteAt_subset _ _ i' hx'

theorem if_append_sublist {c : Prop} [Decidable c] (l : List ℕ) (act : ℕ) :
    ∃ extra, (if c then l ++ [act] else l) = l ++ extra ∧ extra.Sublist [act] := by
  split
  · exact ⟨[act], rfl, List.Sublist.refl _⟩
  · exact ⟨[], by simp, List.nil_sublist _⟩

/-- A successful iteration of the active-node loop keeps the active array,
writes only the processed node's column (and temperature slot), and appends at
most its own position to the pending-clear list. -/
theorem solveNodeStep_ok_elim (cfg : SolveConfig) (systems : List SysBehavior)
    (t_arr T_in : List ℚ) (flag : Bool) (acc : List ℚ × RxnState × List ℤ)
    (act : ℕ) (out : List ℚ × RxnState × List ℤ)
    (h : solveNodeStep cfg systems t_arr T_in flag acc act = .ok out) :
    out.2.1.active_nodes = acc.2.1.active_nodes
    ∧ (∀ i', i' ≠ acc.2.1.active_nodes.getD act 0 →
        out.1.getD i' 0 = acc.1.getD i' 0
        ∧ (∀ j, (out.2.1.species_density.getD j []).getD i' 0
            = (acc.2.1.species_density.getD j []).getD i' 0)
        ∧ (∀ j, (out.2.1.species_rate.getD j []).getD i' 0
            = (acc.2.1.species_rate.getD j []).getD i' 0)
        ∧ out.2.1.temperature_rate.getD i' 0 = acc.2.1.temperature_rate.getD i' 0
        ∧ out.2.1.heat_release_rate.getD i' 0 = acc.2.1.heat_release_rate.getD i' 0)
    ∧ (∃ extra, out.2.1.inactive_node_list = acc.2.1.inactive_node_list ++ extra
        ∧ extra.Sublist [act]) := by
  unfold solveNodeStep at h
  simp only [] at h
  split at h
  · exact absurd h (by simp)
  · replace h := (Except.ok.inj h).symm
    subst h
    refine ⟨rfl, ?_, ?_⟩
    · intro i' hi'
      refine ⟨getD_set_ne' _ _ _ _ _ (Ne.symm hi'), ?_, ?_,
        getD_set_ne' _ _ _ _ _ (Ne.symm hi'), getD_set_ne' _ _ _ _ _ (Ne.symm hi')⟩
      · intro j
        exact setColumn_getD_ne _ _ _ _ hi' _ j
      · intro j
        exact setColumn_getD_ne _ _ _ _ hi' _ j
    · exact if_append_sublist _ _

/-- The active-node loop: keeps the active array, writes only columns of
active nodes, and extends the pending-clear list by a subsequence of the
processed positions. -/
theorem solveFold_props (cfg : SolveConfig) (systems : List SysBehavior)
    (t_arr T_in : List ℚ) (flag : Bool) :
    ∀ (acts : List ℕ) (acc out : List ℚ × RxnState × List ℤ),
      (∀ a ∈ acts, a < acc.2.1.active_nodes.length) →
      acts.foldlM (solveNodeStep cfg systems t_arr T_in flag) acc = .ok out →
      out.2.1.active_nodes = acc.2.1.active_nodes
      ∧ (∀ i', i' ∉ acc.2.1.active_nodes →
          out.1.getD i' 0 = acc.1.getD i' 0
          ∧ (∀ j, (out.2.1.species_density.getD j []).getD i' 0
              = (acc.2.1.species_density.getD j []).getD i' 0)
          ∧ (∀ j, (out.2.1.species_rate.getD j []).getD i' 0
              = (acc.2.1.species_rate.getD j []).getD i' 0)
          ∧ out.2.1.temperature_rate.getD i' 0 = acc.2.1.temperature_rate.getD i' 0
          ∧ out.2.1.heat_release_rate.getD i' 0
              = acc.2.1.heat_release_rate.getD i' 0)
      ∧ (∃ extra, out.2.1.inactive_node_list = acc.2.1.inactive_node_list ++ extra
          ∧ extra.Sublist acts) := by
  intro acts
  induction acts with
  | nil =>
    intro acc out _ hfold
    have : acc = out := Except.ok.inj hfold
    subst this
    exact ⟨rfl, fun i' _ => ⟨rfl, fun _ => rfl, fun _ => rfl, rfl, rfl⟩,
      ⟨[], by simp, List.nil_sublist _⟩⟩
  | cons a acts ih =>
    intro acc out hbound hfold
    rw [List.foldlM_cons] at hfold
    cases hstep : solveNodeStep cfg systems t_arr T_in flag acc a with
    | error e =>
      rw [hstep] at hfold
      exact absurd hfold (by simp [Bind.bind, Except.bind])
    | ok acc1 =>
      rw [hstep] at hfold
      have hfold' : acts.foldlM (solveNodeStep cfg systems t_arr T_in flag) acc1
          = .ok out := hfold
      obtain ⟨hact1, hframe1, hin1⟩ :=
        solveNodeStep_ok_elim cfg systems t_arr T_in flag acc a acc1 hstep
      have hbound1 : ∀ x ∈ acts, x < acc1.2.1.active_nodes.length := by
        rw [hact1]
        exact fun x hx => hbound x (List.mem_cons_of_mem _ hx)
      obtain ⟨hact2, hframe2, hin2⟩ := ih acc1 out hbound1 hfold'
      refine ⟨hact2.trans hact1, ?_, ?_⟩
      · intro i' hi'
        have hne : i' ≠ acc.2.1.active_nodes.getD a 0 := by
          intro he
          apply hi'
          rw [he, List.getD_eq_getElem _ _ (hbound a (List.mem_cons_self a acts))]
          exact List.getElem_mem _
        have h1 := hframe1 i' hne
        have hi'2 : i' ∉ acc1.2.1.active_nodes := by
          rw [hact1]
          exact hi'
        have h2 := hframe2 i' hi'2
        exact ⟨h2.1.trans h1.1, fun j => (h2.2.1 j).trans (h1.2.1 j),
          fun j => (h2.2.2.1 j).trans (h1.2.2.1 j),
          h2.2.2.2.1.trans h1.2.2.2.1, h2.2.2.2.2.trans h1.2.2.2.2⟩
      · obtain ⟨e1, he1, hs1⟩ := hin1
        obtain ⟨e2, he2, hs2⟩ := hin2
        refine ⟨e1 ++ e2, by rw [he2, he1, List.append_assoc], ?_⟩
        have := List.Sublist.append hs1 hs2
        simpa using this

/-- While every active node carries a nonnegative system index, the
active-node loop cannot raise. -/
theorem solveFold_ok (cfg : SolveConfig) (systems : List SysBehavior)
    (t_arr T_in : List ℚ) (flag : Bool) :
    ∀ (acts : List ℕ) (acc : List ℚ × RxnState × List ℤ),
      (∀ a ∈ acts, a < acc.2.1.active_nodes.length) →
      (∀ i ∈ acc.2.1.active_nodes, 0 ≤ cfg.node_to_system_map.getD i 0) →
      ∃ out, acts.foldlM (solveNodeStep cfg systems t_arr T_in flag) acc
        = .ok out := by
  intro acts
  induction acts with
  | nil =>
    intro acc _ _
    exact ⟨acc, rfl⟩
  | cons a acts ih =>
    intro acc hbound hinv
    rw [List.foldlM_cons]
    cases hstep : solveNodeStep cfg systems t_arr T_in flag acc a with
    | error e =>
      exfalso
      unfold solveNodeStep at hstep
      simp only [] at hstep
      split at hstep
      · rename_i hneg
        have hmem : acc.2.1.active_nodes.getD a 0 ∈ acc.2.1.active_nodes := by
          rw [List.getD_eq_getElem _ _ (hbound a (List.mem_cons_self a acts))]
          exact List.getElem_mem _
        exact absurd (hinv _ hmem) (by omega)
      · exact absurd hstep (by simp)
    | ok acc1 =>
      obtain ⟨hact1, _, _⟩ :=
        solveNodeStep_ok_elim cfg systems t_arr T_in flag acc a acc1 hstep
      obtain ⟨out, hout⟩ := ih acc1
        (by rw [hact1]; exact fun x hx => hbound x (List.mem_cons_of_mem _ hx))
        (by rw [hact1]; exact hinv)
      exact ⟨out, hout⟩

/-- **C9**: a `solve_ode_all_nodes` call writes only the state slices of
active nodes: at every node outside the active set (given well-formed
pending-clear positions), the returned temperatures equal the input
temperatures and the species densities, species rates, temperature rate and
heat-release rate are unchanged; such a node is not active afterwards
either. -/
theorem solve_writes_only_active (cfg : SolveConfig) (systems : List SysBehavior)
    (t_arr T_in : List ℚ) (flag : Bool) (st : RxnState)
    (T_out : List ℚ) (st' : RxnState) (errs : List ℤ)
    (hok : solve_ode_all_nodes cfg systems t_arr T_in flag st
      = .ok (T_out, st', errs))
    (hbound : ∀ a ∈ st.inactive_node_list, a < st.active_nodes.length)
    (i' : ℕ) (hi' : i' ∉ st.active_nodes) :
    T_out.getD i' 0 = T_in.getD i' 0
    ∧ (∀ j, (st'.species_density.getD j []).getD i' 0
        = (st.species_density.getD j []).getD i' 0)
    ∧ (∀ j, (st'.species_rate.getD j []).getD i' 0
        = (st.species_rate.getD j []).getD i' 0)
    ∧ st'.temperature_rate.getD i' 0 = st.temperature_rate.getD i' 0
    ∧ st'.heat_release_rate.getD i' 0 = st.heat_release_rate.getD i' 0
    ∧ i' ∉ st'.active_nodes := by
  unfold solve_ode_all_nodes at hok
  simp only [] at hok
  by_cases hcl : st.inactive_node_list ≠ []
  · rw [if_pos hcl] at hok
    have hclr := clear_nodes_frame st i' hbound hi'
    have hi1 : i' ∉ (clear_nodes st).active_nodes := hclr.2.2.2.2
    obtain ⟨hact, hframe, _⟩ := solveFold_props cfg systems t_arr T_in flag
      (List.range (clear_nodes st).active_nodes.length)
      (T_in, clear_nodes st, []) (T_out, st', errs)
      (fun a ha => List.mem_range.mp ha) hok
    have hf := hframe i' hi1
    refine ⟨hf.1, fun j => (hf.2.1 j).trans (hclr.1 j),
      fun j => (hf.2.2.1 j).trans (hclr.2.1 j),
      hf.2.2.2.1.trans hclr.2.2.1, hf.2.2.2.2.trans hclr.2.2.2.1, ?_⟩
    rw [show st'.active_nodes = (clear_nodes st).active_nodes from hact]
    exact hi1
  · rw [if_neg hcl] at hok
    obtain ⟨hact, hframe, _⟩ := solveFold_props cfg systems t_arr T_in flag
      (List.range st.active_nodes.length) (T_in, st, []) (T_out, st', errs)
      (fun a ha => List.mem_range.mp ha) hok
    have hf := hframe i' hi'
    refine ⟨hf.1, hf.2.1, hf.2.2.1, hf.2.2.2.1, hf.2.2.2.2, ?_⟩
    rw [show st'.active_nodes = st.active_nodes from hact]
    exact hi'

/-- Witness for C9: one active node (node 0) over a two-node domain with an
always-complete single-species integrator; node 1 is untouched by the call. -/
theorem solve_writes_only_active_witness :
    ((solve_ode_all_nodes ⟨1, [0, 0], 1⟩
        [⟨fun _ v => (v, 0), fun _ => [0, 0], fun _ => true⟩] [0, 1] [5, 6] false
        ⟨[[2, 3]], [[0, 0]], [0, 0], [0, 0], [0], []⟩).toOption.getD default).1.getD 1 0
      = ([5, 6] : List ℚ).getD 1 0
    ∧ 1 ∉ ((solve_ode_all_nodes ⟨1, [0, 0], 1⟩
        [⟨fun _ v => (v, 0), fun _ => [0, 0], fun _ => true⟩] [0, 1] [5, 6] false
        ⟨[[2, 3]], [[0, 0]], [0, 0], [0, 0], [0], []⟩).toOption.getD
          default).2.1.active_nodes := by
  have h := solve_writes_only_active ⟨1, [0, 0], 1⟩
    [⟨fun _ v => (v, 0), fun _ => [0, 0], fun _ => true⟩] [0, 1] [5, 6] false
    ⟨[[2, 3]], [[0, 0]], [0, 0], [0, 0], [0], []⟩
    ((solve_ode_all_nodes ⟨1, [0, 0], 1⟩
      [⟨fun _ v => (v, 0), fun _ => [0, 0], fun _ => true⟩] [0, 1] [5, 6] false
      ⟨[[2, 3]], [[0, 0]], [0, 0], [0, 0], [0], []⟩).toOption.getD default).1
    ((solve_ode_all_nodes ⟨1, [0, 0], 1⟩
      [⟨fun _ v => (v, 0), fun _ => [0, 0], fun _ => true⟩] [0, 1] [5, 6] false
      ⟨[[2, 3]], [[0, 0]], [0, 0], [0, 0], [0], []⟩).toOption.getD default).2.1
    ((solve_ode_all_nodes ⟨1, [0, 0], 1⟩
      [⟨fun _ v => (v, 0), fun _ => [0, 0], fun _ => true⟩] [0, 1] [5, 6] false
      ⟨[[2, 3]], [[0, 0]], [0, 0], [0, 0], [0], []⟩).toOption.getD default).2.2
    (by with_unfolding_all rfl) (by simp) 1 (by decide)
  exact ⟨h.1, h.2.2.2.2.2⟩

theorem clear_nodes_active_subset (st : RxnState) :
    ∀ x ∈ (clear_nodes st).active_nodes, x ∈ st.active_nodes := by
  intro x hx
  have hnodes := clearFold_nodes st.inactive_node_list st
  have hx' : x ∈ deleteAt (st.inactive_node_list.foldl clearOne st).active_nodes
      (st.inactive_node_list.foldl clearOne st).inactive_node_list := hx
  rw [hnodes.1, hnodes.2] at hx'
  exact deleteAt_subset _ _ x hx'

/-- The active set never grows across a `solve_ode_all_nodes` call. -/
theorem solve_active_subset (cfg : SolveConfig) (systems : List SysBehavior)
    (t_arr T_in : List ℚ) (flag : Bool) (st : RxnState)
    (T_out : List ℚ) (st' : RxnState) (errs : List ℤ)
    (hok : solve_ode_all_nodes cfg systems t_arr T_in flag st
      = .ok (T_out, st', errs)) :
    ∀ x ∈ st'.active_nodes, x ∈ st.active_nodes := by
  unfold solve_ode_all_nodes at hok
  simp only [] at hok
  by_cases hcl : st.inactive_node_list ≠ []
  · rw [if_pos hcl] at hok
    obtain ⟨hact, _, _⟩ := solveFold_props cfg systems t_arr T_in flag
      (List.range (clear_nodes st).active_nodes.length)
      (T_in, clear_nodes st, []) (T_out, st', errs)
      (fun a ha => List.mem_range.mp ha) hok
    intro x hx
    refine clear_nodes_active_subset st x ?_
    rw [← show st'.active_nodes = (clear_nodes st).active_nodes from hact]
    exact hx
  · rw [if_neg hcl] at hok
    obtain ⟨hact, _, _⟩ := solveFold_props cfg systems t_arr T_in flag
      (List.range st.active_nodes.length) (T_in, st, []) (T_out, st', errs)
      (fun a ha => List.mem_range.mp ha) hok
    intro x hx
    rw [← show st'.active_nodes = st.active_nodes from hact]
    exact hx

theorem reachable_active_subset (cfg : SolveConfig) (st st3 : RxnState)
    (h : ReachableFrom cfg st st3) : ∀ x ∈ st3.active_nodes, x ∈ st.active_nodes := by
  induction h with
  | refl => exact fun x hx => hx
  | step _ hok ih =>
    rename_i st1 st2 systems t_arr T_in flag T_out errs _
    exact fun x hx => ih x (solve_active_subset _ _ _ _ _ _ _ _ _ hok x hx)

/-- **C6**: a node whose reaction system's completion predicate held during a
`solve_ode_all_nodes` call (so its position `act` was recorded in the
pending-clear list — `solveNodeStep` appends `act` exactly when
`check_complete` returns true) is cleared at the start of the following call,
before any node is integrated: its sub-threshold species densities are
snapped to exactly zero, all its rates are set to exactly zero, its
temperature output on the second call is the unmodified input temperature,
and it is removed from the active set permanently — no reachable later state
re-activates it. -/
theorem exhausted_node_cleared_next_call (cfg : SolveConfig)
    (systems1 systems2 : List SysBehavior) (t1 t2 T1in T2in : List ℚ)
    (f1 f2 : Bool) (st : RxnState) (T1 : List ℚ) (st1 : RxnState) (e1 : List ℤ)
    (T2 : List ℚ) (st2 : RxnState) (e2 : List ℤ) (act i : ℕ)
    (hstart : st.inactive_node_list = [])
    (hndA : st.active_nodes.Nodup)
    (hok1 : solve_ode_all_nodes cfg systems1 t1 T1in f1 st = .ok (T1, st1, e1))
    (hmem : act ∈ st1.inactive_node_list)
    (hi : st.active_nodes.getD act 0 = i)
    (hok2 : solve_ode_all_nodes cfg systems2 t2 T2in f2 st1 = .ok (T2, st2, e2)) :
    (∀ j, (st2.species_density.getD j []).getD i 0
      = if (st1.species_density.getD j []).getD i 0 < small_number then 0
        else (st1.species_density.getD j []).getD i 0)
    ∧ (∀ j, (st2.species_rate.getD j []).getD i 0 = 0)
    ∧ st2.temperature_rate.getD i 0 = 0
    ∧ st2.heat_release_rate.getD i 0 = 0
    ∧ T2.getD i 0 = T2in.getD i 0
    ∧ i ∉ st2.active_nodes
    ∧ (∀ st3, ReachableFrom cfg st2 st3 → i ∉ st3.active_nodes) := by
  unfold solve_ode_all_nodes at hok1
  simp only [] at hok1
  rw [if_neg (by simp [hstart])] at hok1
  obtain ⟨hact1, _, extra, hextra, hsub⟩ := solveFold_props cfg systems1 t1 T1in f1
    (List.range st.active_nodes.length) (T1in, st, []) (T1, st1, e1)
    (fun a ha => List.mem_range.mp ha) hok1
  have hact1' : st1.active_nodes = st.active_nodes := hact1
  have hin1 : st1.inactive_node_list = st.inactive_node_list ++ extra := hextra
  rw [hstart, List.nil_append] at hin1
  have hsub' : st1.inactive_node_list.Sublist (List.range st.active_nodes.length) := by
    rw [hin1]
    exact hsub
  have hbound1 : ∀ a ∈ st1.inactive_node_list, a < st1.active_nodes.length := by
    intro a ha
    rw [hact1']
    exact List.mem_range.mp (hsub'.subset ha)
  have hnd1 : st1.inactive_node_list.Nodup := hsub'.nodup (List.nodup_range _)
  have hndA1 : st1.active_nodes.Nodup := by
    rw [hact1']
    exact hndA
  have hi1 : st1.active_nodes.getD act 0 = i := by
    rw [hact1']
    exact hi
  have hne2 : st1.inactive_node_list ≠ [] := List.ne_nil_of_mem hmem
  unfold solve_ode_all_nodes at hok2
  simp only [] at hok2
  rw [if_pos hne2] at hok2
  obtain ⟨hd, hr, ht, hh, hnotin, _, _⟩ :=
    clear_nodes_spec st1 act i hmem hnd1 hbound1 hndA1 hi1
  obtain ⟨hact2, hframe2, _⟩ := solveFold_props cfg systems2 t2 T2in f2
    (List.range (clear_nodes st1).active_nodes.length)
    (T2in, clear_nodes st1, []) (T2, st2, e2)
    (fun a ha => List.mem_range.mp ha) hok2
  have hf := hframe2 i hnotin
  have hact2' : st2.active_nodes = (clear_nodes st1).active_nodes := hact2
  have hnotin2 : i ∉ st2.active_nodes := by
    rw [hact2']
    exact hnotin
  refine ⟨fun j => (hf.2.1 j).trans (hd j), fun j => (hf.2.2.1 j).trans (hr j),
    hf.2.2.2.1.trans ht, hf.2.2.2.2.trans hh, hf.1, hnotin2, ?_⟩
  intro st3 hreach hmem3
  exact hnotin2 (reachable_active_subset cfg st2 st3 hreach i hmem3)

/-- Witness for C6: one node, one species below the threshold, an
always-complete integrator; after the first call marks the node and the
second call clears it, its rates are zero, its temperature output is the
second call's input, and it is inactive. -/
theorem exhausted_node_cleared_next_call_witness :
    lifecycleRun2.2.1.temperature_rate.getD 0 0 = 0
    ∧ lifecycleRun2.1.getD 0 0 = ([400] : List ℚ).getD 0 0
    ∧ 0 ∉ lifecycleRun2.2.1.active_nodes := by
  have h := exhausted_node_cleared_next_call lifecycleCfg [lifecycleBeh] [lifecycleBeh]
    [0] [0] [300] [400] false false lifecycleSt0
    lifecycleRun1.1 lifecycleRun1.2.1 lifecycleRun1.2.2
    lifecycleRun2.1 lifecycleRun2.2.1 lifecycleRun2.2.2 0 0
    rfl (by decide)
    (by with_unfolding_all rfl)
    (by with_unfolding_all decide)
    rfl
    (by with_unfolding_all rfl)
  exact ⟨h.2.2.1, h.2.2.2.2.1, h.2.2.2.2.2.1⟩

theorem setRange_length (key : List ℕ) (a b v : ℕ) :
    (setRange key a b v).length = key.length := by
  simp [setRange]

theorem setRange_getD_in (key : List ℕ) (a b v i : ℕ)
    (h1 : a ≤ i) (h2 : i < b) (h3 : i < key.length) :
    (setRange key a b v).getD i 0 = v := by
  rw [setRange, List.getD_eq_getElem _ _ (by simpa using h3), List.getElem_mapIdx,
    if_pos ⟨h1, h2⟩]

theorem setRange_getD_ge_one (key : List ℕ) (a b v i : ℕ)
    (hv : 1 ≤ v) (hk : 1 ≤ key.getD i 0) :
    1 ≤ (setRange key a b v).getD i 0 := by
  by_cases h3 : i < key.length
  · rw [setRange, List.getD_eq_getElem _ _ (by simpa using h3), List.getElem_mapIdx]
    split
    · exact hv
    · rw [← List.getD_eq_getElem key 0 h3]
      exact hk
  · rw [List.getD_eq_default _ _ (by omega)] at hk
    omega

theorem cellKeyGo_key_length (names : List String) (firsts : List ℕ) (mat : String) :
    ∀ (ks : List ℕ) (n : ℕ) (key : List ℕ),
      (cellKeyGo names firsts mat ks (n, key)).2.length = key.length := by
  intro ks
  induction ks with
  | nil =>
    intro n key
    rfl
  | cons k ks ih =>
    intro n key
    rw [cellKeyGo]
    split
    · rw [ih]
      exact setRange_length _ _ _ _
    · exact ih n key

/-- Once a node's cell key is positive, the rest of the cell-counting loop
keeps it positive (every slice assignment writes a positive cell number). -/
theorem cellKeyGo_ge_one (names : List String) (firsts : List ℕ) (mat : String) :
    ∀ (ks : List ℕ) (n : ℕ) (key : List ℕ) (i : ℕ),
      1 ≤ key.getD i 0 →
      1 ≤ (cellKeyGo names firsts mat ks (n, key)).2.getD i 0 := by
  intro ks
  induction ks with
  | nil =>
    intro n key i h
    exact h
  | cons k ks ih =>
    intro n key i h
    rw [cellKeyGo]
    split
    · exact ih _ _ i (setRange_getD_ge_one _ _ _ _ i (by omega) h)
    · exact ih _ _ i h

/-- A node lying in the range of a matching layer ends the cell-counting loop
with a positive cell key. -/
theorem cellKeyGo_pos (names : List String) (firsts : List ℕ) (mat : String) :
    ∀ (ks : List ℕ) (n : ℕ) (key : List ℕ) (i kstar : ℕ),
      kstar ∈ ks →
      mat = names.getD kstar "" →
      firsts.getD kstar 0 ≤ i →
      i < firsts.getD (kstar + 1) 0 →
      i < key.length →
      1 ≤ (cellKeyGo names firsts mat ks (n, key)).2.getD i 0 := by
  intro ks
  induction ks with
  | nil =>
    intro n key i kstar h
    simp at h
  | cons k ks ih =>
    intro n key i kstar hmem hname h1 h2 hlen
    rcases List.mem_cons.mp hmem with rfl | hmem'
    · rw [cellKeyGo, if_pos hname]
      refine cellKeyGo_ge_one names firsts mat ks _ _ i ?_
      rw [setRange_getD_in key _ _ _ i h1 h2 hlen]
      omega
    · rw [cellKeyGo]
      split
      · exact ih _ _ i kstar hmem' hname h1 h2 (by rw [setRange_length]; exact hlen)
      · exact ih _ _ i kstar hmem' hname h1 h2 hlen

/-- The first-node list with the total appended reads off the cumulative node
counts. -/
theorem firstNodes_ext_getD :
    ∀ (layers : List Layer) (s k : ℕ), k ≤ layers.length →
      (firstNodesFrom s layers ++ [s + totalNodes layers]).getD k 0
        = s + totalNodes (layers.take k) := by
  intro layers
  induction layers with
  | nil =>
    intro s k hk
    have : k = 0 := by simpa using hk
    subst this
    simp [firstNodesFrom, totalNodes]
  | cons l ls ih =>
    intro s k hk
    cases k with
    | zero => simp [firstNodesFrom, totalNodes]
    | succ k' =>
      have step : (firstNodesFrom s (l :: ls) ++ [s + totalNodes (l :: ls)]).getD (k' + 1) 0
          = (firstNodesFrom (s + (nodesInLayer l).toNat) ls
            ++ [(s + (nodesInLayer l).toNat) + totalNodes ls]).getD k' 0 := by
        show ((s :: firstNodesFrom (s + (nodesInLayer l).toNat) ls)
          ++ [s + totalNodes (l :: ls)]).getD (k' + 1) 0 = _
        rw [List.cons_append, List.getD_cons_succ]
        have : s + totalNodes (l :: ls)
            = (s + (nodesInLayer l).toNat) + totalNodes ls := by
          simp [totalNodes]
          omega
        rw [this]
      rw [step, ih (s + (nodesInLayer l).toNat) k' (by simpa using hk)]
      simp [totalNodes]
      omega

/-- Every node index belongs to some layer's range, and its material tag is
that layer's name. -/
theorem matNodes_decompose :
    ∀ (layers : List Layer) (i : ℕ), i < totalNodes layers →
      ∃ k, k < layers.length
        ∧ totalNodes (layers.take k) ≤ i
        ∧ i < totalNodes (layers.take (k + 1))
        ∧ (matNodesOf layers).getD i "" = (layers.getD k default).name := by
  intro layers
  induction layers with
  | nil =>
    intro i hi
    rw [show totalNodes [] = 0 from rfl] at hi
    omega
  | cons l ls ih =>
    intro i hi
    by_cases hc : i < (nodesInLayer l).toNat
    · refine ⟨0, by simp, by simp [totalNodes], ?_, ?_⟩
      · rw [show (l :: ls).take 1 = [l] from rfl]
        simpa [totalNodes] using hc
      · have hrep : i < (List.replicate (nodesInLayer l).toNat l.name).length := by
          simpa using hc
        rw [show matNodesOf (l :: ls)
            = List.replicate (nodesInLayer l).toNat l.name ++ matNodesOf ls from by
              simp [matNodesOf]]
        rw [List.getD_append _ _ _ _ hrep, List.getD_eq_getElem _ _ hrep]
        simp
    · have hi' : i - (nodesInLayer l).toNat < totalNodes ls := by
        have : totalNodes (l :: ls) = (nodesInLayer l).toNat + totalNodes ls := by
          simp [totalNodes]
        omega
      obtain ⟨k', hk', hlo, hhi, hval⟩ := ih (i - (nodesInLayer l).toNat) hi'
      refine ⟨k' + 1, by simpa using hk', ?_, ?_, ?_⟩
      · rw [show (l :: ls).take (k' + 1) = l :: ls.take k' from rfl]
        have : totalNodes (l :: ls.take k')
            = (nodesInLayer l).toNat + totalNodes (ls.take k') := by
          simp [totalNodes]
        omega
      · rw [show (l :: ls).take (k' + 2) = l :: ls.take (k' + 1) from rfl]
        have : totalNodes (l :: ls.take (k' + 1))
            = (nodesInLayer l).toNat + totalNodes (ls.take (k' + 1)) := by
          simp [totalNodes]
        omega
      · rw [show matNodesOf (l :: ls)
            = List.replicate (nodesInLayer l).toNat l.name ++ matNodesOf ls from by
              simp [matNodesOf]]
        rw [List.getD_append_right _ _ _ _ (by simpa using hc)]
        rw [List.length_replicate]
        rw [hval]
        rfl

/-- A successful `setup_grid` implies every layer passed the thickness check,
and the result is `gridOf layers`. -/
theorem setup_grid_ok_elim_full (layers : List Layer) (g : Grid)
    (hok : setup_grid layers = .ok g) :
    g = gridOf layers ∧ ∀ l ∈ layers, ¬ l.thickness < l.dx := by
  by_cases hth : ∃ l ∈ layers, l.thickness < l.dx
  · obtain ⟨e, he⟩ := gridFold_error layers ⟨0, [], [], [], [], []⟩ hth
    unfold setup_grid at hok
    rw [he] at hok
    exact absurd hok (by simp [Bind.bind, Except.bind])
  · push_neg at hth
    have h1 : ∀ l ∈ layers, ¬ l.thickness < l.dx :=
      fun l hl => not_lt.mpr (hth l hl)
    exact ⟨setup_grid_ok_elim layers g h1 hok, h1⟩

/-- After a successful setup, every active node carries a nonnegative
reaction-system index: the nodes of the reacting material are exactly the
nodes stamped with a positive cell key, and every positive cell key maps to a
system. -/
theorem pipeline_inv (c : Config) (cfg : SolveConfig) (st0 : RxnState)
    (sys : List BuiltSystem) (hpipe : setup_pipeline c = .ok (cfg, st0, sys)) :
    ∀ i ∈ st0.active_nodes, 0 ≤ cfg.node_to_system_map.getD i 0 := by
  unfold setup_pipeline at hpipe
  cases hg : setup_grid c.layers with
  | error e =>
    rw [hg] at hpipe
    simp [Bind.bind, Except.bind] at hpipe
  | ok g =>
  rw [hg] at hpipe
  simp only [Bind.bind, Except.bind] at hpipe
  cases hmi : reaction_manager_init g c.opts with
  | error e =>
    rw [hmi] at hpipe
    simp at hpipe
  | ok mi =>
  rw [hmi] at hpipe
  simp only [] at hpipe
  cases hls : load_species g c.spec c.mat with
  | error e =>
    rw [hls] at hpipe
    simp at hpipe
  | ok ls =>
  rw [hls] at hpipe
  simp only [] at hpipe
  cases hlr : load_reactions ls.n_cells ls.cell_node_key ls.rho_cp mi.dsc_info
      c.rxns with
  | error e =>
    rw [hlr] at hpipe
    simp at hpipe
  | ok lr =>
  rw [hlr] at hpipe
  simp only [Except.ok.injEq, Prod.mk.injEq] at hpipe
  obtain ⟨hcfg, hst0, hsys⟩ := hpipe
  subst hcfg
  subst hst0
  obtain ⟨hgrid, _⟩ := setup_grid_ok_elim_full c.layers g hg
  subst hgrid
  unfold load_species at hls
  split at hls
  · exact absurd hls (by simp)
  · split at hls
    · exact absurd hls (by simp)
    · replace hls := Except.ok.inj hls
      subst hls
      unfold load_reactions at hlr
      simp only [] at hlr
      cases hb : buildActiveCells
          ((cellKeyGo (gridOf c.layers).layer_names
            ((gridOf c.layers).first_node_list ++ [(gridOf c.layers).n_tot])
            c.spec.material_name
            (List.range (gridOf c.layers).layer_names.length)
            (0, List.replicate (gridOf c.layers).n_tot 0)).1)
          (sortedRxns c.rxns) with
      | error e =>
        rw [hb] at hlr
        simp [Bind.bind, Except.bind] at hlr
      | ok rows =>
      rw [hb] at hlr
      simp only [Bind.bind, Except.bind, Except.ok.injEq] at hlr
      subst hlr
      dsimp only
      intro i hi
      rw [List.mem_filter] at hi
      obtain ⟨hrange, hpred⟩ := hi
      rw [List.mem_range] at hrange
      rw [decide_eq_true_eq] at hpred
      have hpred' : (matNodesOf c.layers).getD i "" = c.spec.material_name := hpred
      have hi' : i < totalNodes c.layers := hrange
      obtain ⟨k, hkL, hlo, hhi, hname⟩ := matNodes_decompose c.layers i hi'
      have hfe : ∀ k', k' ≤ c.layers.length →
          ((gridOf c.layers).first_node_list ++ [(gridOf c.layers).n_tot]).getD k' 0
            = totalNodes (c.layers.take k') := by
        intro k' hk'
        have h := firstNodes_ext_getD c.layers 0 k' hk'
        simpa using h
      have hnames : ((gridOf c.layers).layer_names).getD k ""
          = (c.layers.getD k default).name := by
        have h := map_getD_lt Layer.name c.layers k default "" hkL
        exact h
      have hmat : c.spec.material_name = ((gridOf c.layers).layer_names).getD k "" := by
        rw [hnames, ← hname, hpred']
      have hkey : 1 ≤ (cellKeyGo (gridOf c.layers).layer_names
          ((gridOf c.layers).first_node_list ++ [(gridOf c.layers).n_tot])
          c.spec.material_name
          (List.range (gridOf c.layers).layer_names.length)
          (0, List.replicate (gridOf c.layers).n_tot 0)).2.getD i 0 := by
        refine cellKeyGo_pos _ _ _ _ 0 _ i k ?_ hmat ?_ ?_ ?_
        · rw [List.mem_range]
          have : (gridOf c.layers).layer_names.length = c.layers.length := by
            exact List.length_map _ _
          omega
        · rw [hfe k (by omega)]
          exact hlo
        · rw [hfe (k + 1) (by omega)]
          exact hhi
        · rw [List.length_replicate]
          exact hrange
      have hklen : (cellKeyGo (gridOf c.layers).layer_names
          ((gridOf c.layers).first_node_list ++ [(gridOf c.layers).n_tot])
          c.spec.material_name
          (List.range (gridOf c.layers).layer_names.length)
          (0, List.replicate (gridOf c.layers).n_tot 0)).2.length
          = (gridOf c.layers).n_tot := by
        rw [cellKeyGo_key_length, List.length_replicate]
      show 0 ≤ (map_all_systems rows _ _).1.getD i 0
      rw [show (map_all_systems rows
          ((cellKeyGo (gridOf c.layers).layer_names
            ((gridOf c.layers).first_node_list ++ [(gridOf c.layers).n_tot])
            c.spec.material_name
            (List.range (gridOf c.layers).layer_names.length)
            (0, List.replicate (gridOf c.layers).n_tot 0)).2)
          (cellKeyGo (gridOf c.layers).layer_names
            ((gridOf c.layers).first_node_list ++ [(gridOf c.layers).n_tot])
            c.spec.material_name
            (List.range (gridOf c.layers).layer_names.length)
            (0, List.replicate (gridOf c.layers).n_tot 0)).1).1
          = (cellKeyGo (gridOf c.layers).layer_names
            ((gridOf c.layers).first_node_list ++ [(gridOf c.layers).n_tot])
            c.spec.material_name
            (List.range (gridOf c.layers).layer_names.length)
            (0, List.replicate (gridOf c.layers).n_tot 0)).2.map
            (fun cc => if 1 ≤ cc then
              (((uniqueSystems rows
                (cellKeyGo (gridOf c.layers).layer_names
                  ((gridOf c.layers).first_node_list ++ [(gridOf c.layers).n_tot])
                  c.spec.material_name
                  (List.range (gridOf c.layers).layer_names.length)
                  (0, List.replicate (gridOf c.layers).n_tot 0)).1).1.getD
                (cc - 1) 0 : ℕ) : ℤ)
            else -1) from rfl]
      rw [map_getD_lt _ _ _ 0 _ (by rw [hklen]; exact hrange)]
      rw [if_pos hkey]
      exact Int.natCast_nonneg _

/-- While every active node has a system, a solve call succeeds. -/
theorem solve_ok_of_inv (cfg : SolveConfig) (systems : List SysBehavior)
    (t_arr T_in : List ℚ) (flag : Bool) (st : RxnState)
    (hinv : ∀ i ∈ st.active_nodes, 0 ≤ cfg.node_to_system_map.getD i 0) :
    ∃ out, solve_ode_all_nodes cfg systems t_arr T_in flag st = .ok out := by
  unfold solve_ode_all_nodes
  simp only []
  by_cases hcl : st.inactive_node_list ≠ []
  · rw [if_pos hcl]
    exact solveFold_ok cfg systems t_arr T_in flag _ (T_in, clear_nodes st, [])
      (fun a ha => List.mem_range.mp ha)
      (fun i hi => hinv i (clear_nodes_active_subset st i hi))
  · rw [if_neg hcl]
    exact solveFold_ok cfg systems t_arr T_in flag _ (T_in, st, [])
      (fun a ha => List.mem_range.mp ha) (fun i hi => hinv i hi)

/-- **C1**: if a configuration passes the whole setup phase
(`set_table`/`setup_grid`, `reaction_manager` construction, `load_species`,
`load_reactions`) without raising, then no later `solve_ode_all_nodes` call —
on any state reachable by repeated calls, with any integrator behaviour —
raises a configuration error: in particular the unresolved node-to-system
check (system index −1) inside the simulation loop never fires. -/
theorem pipeline_solve_never_raises (c : Config) (cfg : SolveConfig)
    (st0 : RxnState) (sys : List BuiltSystem)
    (hpipe : setup_pipeline c = .ok (cfg, st0, sys))
    (st : RxnState) (hreach : ReachableFrom cfg st0 st)
    (systems : List SysBehavior) (t_arr T_in : List ℚ) (flag : Bool) :
    ∃ out, solve_ode_all_nodes cfg systems t_arr T_in flag st = .ok out := by
  have hinv0 := pipeline_inv c cfg st0 sys hpipe
  exact solve_ok_of_inv cfg systems t_arr T_in flag st
    (fun i hi => hinv0 i (reachable_active_subset cfg st0 st hreach i hi))

/-- Witness for C1: the example configuration passes setup and its first
solve call succeeds. -/
theorem pipeline_solve_never_raises_witness :
    ∃ out, solve_ode_all_nodes
      ((setup_pipeline exampleConfig).toOption.getD default).1 [] [] [] false
      ((setup_pipeline exampleConfig).toOption.getD default).2.1 = .ok out :=
  pipeline_solve_never_raises exampleConfig
    ((setup_pipeline exampleConfig).toOption.getD default).1
    ((setup_pipeline exampleConfig).toOption.getD default).2.1
    ((setup_pipeline exampleConfig).toOption.getD default).2.2
    (by with_unfolding_all rfl)
    ((setup_pipeline exampleConfig).toOption.getD default).2.1
    (ReachableFrom.refl _) [] [] [] false

end Lim1tr
